import Mathlib

/-!
Verification of the JWT codec core of this repository: base64url transcoding
(`uint8ArrayToBase64Url`, `base64UrlToBase64`, `base64UrlToUint8Array`,
`base64UrlDecode`), the ECDSA signature format converters (`rawToDer`,
`derToRaw`), the token structure parser (`decodeJWT`) and the signer/verifier
(`encodeJWT`, `verifyJWTSignature`).

Modelling conventions:
* JavaScript strings are modelled as `List Char`; byte sequences
  (`Uint8Array` contents, the code units of "binary strings" fed to `btoa`)
  as `List Nat` with values below 256.
* The platform primitives `btoa` / `atob` are modelled by the standard
  base64 encoding and the WHATWG forgiving-base64 decode that `atob`
  implements (ASCII-whitespace stripping, removal of up to two trailing
  padding characters, failure on a remainder-1 length or a character outside
  the base64 alphabet, leftover bits discarded).
* `decodeURIComponent` applied to the percent-escaped byte string equals a
  strict UTF-8 decode of those bytes (URIError on malformed input), modelled
  by `utf8Decode`; `TextEncoder.encode` is modelled by `utf8Encode`.
* `JSON.parse` is modelled by the recursive-descent parser `jsonParse` over
  the JSON grammar; number values keep their source lexeme (their numeric
  value is never inspected by the code under verification).
* Web Crypto sign/verify primitives (together with key import, including the
  PEM envelope stripping that feeds it) are external collaborators; they are
  abstracted as the `CryptoPrims` parameter record.
* A JavaScript exception escaping a function is modelled by `Option.none`
  where the function can throw; asynchronous rejection is the same.
-/

namespace JWT

/-- JavaScript `String.prototype.trim` whitespace set (WhiteSpace and
LineTerminator code points of ECMA-262). -/
def jsWS (c : Char) : Bool :=
  c.toNat = 0x09 ∨ c.toNat = 0x0A ∨ c.toNat = 0x0B ∨ c.toNat = 0x0C ∨
  c.toNat = 0x0D ∨ c.toNat = 0x20 ∨ c.toNat = 0xA0 ∨ c.toNat = 0x1680 ∨
  (0x2000 ≤ c.toNat ∧ c.toNat ≤ 0x200A) ∨ c.toNat = 0x2028 ∨
  c.toNat = 0x2029 ∨ c.toNat = 0x202F ∨ c.toNat = 0x205F ∨
  c.toNat = 0x3000 ∨ c.toNat = 0xFEFF

/-- `token.trim()`. -/
def jsTrim (l : List Char) : List Char :=
  ((l.dropWhile jsWS).reverse.dropWhile jsWS).reverse

/-- `str.split(".")`: splits on every occurrence of the dot, keeping empty
segments, and yields `[""]` on the empty string. -/
def splitDot : List Char → List (List Char)
  | [] => [[]]
  | c :: t =>
    match splitDot t with
    | [] => [[]]
    | seg :: rest => if c = '.' then [] :: seg :: rest else (c :: seg) :: rest

/-- JavaScript indexed read `a[i]`: `none` models `undefined`. -/
def jsGet (l : List Nat) (i : Nat) : Option Nat :=
  l.get? i

/-- JavaScript `slice(a, b)` on a typed array (non-negative indices):
elements from `a` up to but excluding `b`, clamped to the array. -/
def jsSlice (l : List Nat) (a b : Nat) : List Nat :=
  (l.take b).drop a

/-- The standard base64 alphabet, in index order. -/
def b64Chars : List Char :=
  [ 'A', 'B', 'C', 'D', 'E', 'F', 'G', 'H', 'I', 'J', 'K', 'L', 'M',
    'N', 'O', 'P', 'Q', 'R', 'S', 'T', 'U', 'V', 'W', 'X', 'Y', 'Z',
    'a', 'b', 'c', 'd', 'e', 'f', 'g', 'h', 'i', 'j', 'k', 'l', 'm',
    'n', 'o', 'p', 'q', 'r', 's', 't', 'u', 'v', 'w', 'x', 'y', 'z',
    '0', '1', '2', '3', '4', '5', '6', '7', '8', '9', '+', '/' ]

/-- Character of a 6-bit group. -/
def b64Char (n : Nat) : Char :=
  b64Chars.getD n 'A'

/-- First index of `c` in `l`, counting from `n`. -/
def idxFrom (l : List Char) (c : Char) (n : Nat) : Option Nat :=
  match l with
  | [] => none
  | a :: t => if a = c then some n else idxFrom t c (n + 1)

/-- Index of a character in the base64 alphabet (`none` when absent). -/
def b64Index (c : Char) : Option Nat :=
  idxFrom b64Chars c 0

/-- The 6-bit groups of a byte sequence (base64 bit layout, no padding). -/
def toSextets : List Nat → List Nat
  | [] => []
  | [a] => [a / 4, a % 4 * 16]
  | [a, b] => [a / 4, a % 4 * 16 + b / 16, b % 16 * 4]
  | a :: b :: c :: t =>
    a / 4 :: (a % 4 * 16 + b / 16) :: (b % 16 * 4 + c / 64) :: c % 64 ::
      toSextets t

/-- Number of `=` padding characters standard base64 appends. -/
def b64PadLen (n : Nat) : Nat :=
  if n % 3 = 1 then 2 else if n % 3 = 2 then 1 else 0

/-- `btoa` on a binary string whose code units are the given bytes:
standard base64 with padding. -/
def btoaEncode (bytes : List Nat) : List Char :=
  (toSextets bytes).map b64Char ++ List.replicate (b64PadLen bytes.length) '='

/-- ASCII whitespace stripped by forgiving-base64 decoding. -/
def b64AsciiWS (c : Char) : Bool :=
  c.toNat = 0x09 ∨ c.toNat = 0x0A ∨ c.toNat = 0x0C ∨ c.toNat = 0x0D ∨
  c.toNat = 0x20

/-- Forgiving-base64 step 2: if the data ends with one or two `=`, remove
them. -/
def dropTrailingEq (l : List Char) : List Char :=
  if l.getLast? = some '=' then
    if l.dropLast.getLast? = some '=' then l.dropLast.dropLast else l.dropLast
  else l

/-- Alphabet indices of all characters, failing on the first character
outside the base64 alphabet. -/
def sextetsOf : List Char → Option (List Nat)
  | [] => some []
  | c :: t =>
    match b64Index c, sextetsOf t with
    | some i, some r => some (i :: r)
    | _, _ => none

/-- Bytes of a 6-bit group sequence; a trailing group of 2 or 3 sextets
contributes 1 or 2 bytes, leftover bits discarded (forgiving decode). -/
def sextetsToBytes : List Nat → List Nat
  | a :: b :: c :: d :: t =>
    (a * 4 + b / 16) :: (b % 16 * 16 + c / 4) :: (c % 4 * 64 + d) ::
      sextetsToBytes t
  | [a, b] => [a * 4 + b / 16]
  | [a, b, c] => [a * 4 + b / 16, b % 16 * 16 + c / 4]
  | _ => []

/-- Forgiving-base64 steps 1 and 2: strip ASCII whitespace, and when the
remaining length is a multiple of 4, remove up to two trailing `=`. -/
def atobPrep (s : List Char) : List Char :=
  if (s.filter (fun c => ¬ b64AsciiWS c)).length % 4 = 0 then
    dropTrailingEq (s.filter (fun c => ¬ b64AsciiWS c))
  else s.filter (fun c => ¬ b64AsciiWS c)

/-- `atob`: the WHATWG forgiving-base64 decode. `none` models the thrown
`InvalidCharacterError`. -/
def atobDecode (s : List Char) : Option (List Nat) :=
  if (atobPrep s).length % 4 = 1 then none
  else
    match sextetsOf (atobPrep s) with
    | none => none
    | some sx => some (sextetsToBytes sx)

/-- The two character substitutions `+` to `-` and `/` to `_` done after
`btoa`. -/
def urlRep (c : Char) : Char :=
  if c = '+' then '-' else if c = '/' then '_' else c

/-- The reverse substitutions `-` to `+` and `_` to `/` done before `atob`. -/
def urlUnrep (c : Char) : Char :=
  if c = '-' then '+' else if c = '_' then '/' else c

/-- `replace(/=+$/, "")`: remove every trailing `=`. -/
def rstripEq (l : List Char) : List Char :=
  (l.reverse.dropWhile (fun c => c = '=')).reverse

/-- `uint8ArrayToBase64Url` from `src/app/utils/common.ts`: `btoa` on the
binary string of the bytes, then URL-safe substitutions, then strip the
trailing padding. -/
def uint8ArrayToBase64Url (bytes : List Nat) : List Char :=
  rstripEq ((btoaEncode bytes).map urlRep)

/-- `base64UrlToBase64` from `src/app/utils/common.ts`: reverse the URL-safe
substitutions, then restore padding to a multiple of 4. -/
def base64UrlToBase64 (base64url : List Char) : List Char :=
  let base64 := base64url.map urlUnrep
  if base64.length % 4 = 0 then base64
  else base64 ++ List.replicate (4 - base64.length % 4) '='

/-- `base64UrlToUint8Array` from `src/app/utils/common.ts`: translate to
standard base64, `atob`, and read the code units as bytes. `none` models the
exception `atob` can throw. -/
def base64UrlToUint8Array (base64url : List Char) : Option (List Nat) :=
  atobDecode (base64UrlToBase64 base64url)

/-- UTF-8 bytes of one scalar value. -/
def utf8EncodeChar (c : Char) : List Nat :=
  let n := c.toNat
  if n < 0x80 then [n]
  else if n < 0x800 then [0xC0 + n / 64, 0x80 + n % 64]
  else if n < 0x10000 then
    [0xE0 + n / 4096, 0x80 + n / 64 % 64, 0x80 + n % 64]
  else
    [0xF0 + n / 262144, 0x80 + n / 4096 % 64, 0x80 + n / 64 % 64,
     0x80 + n % 64]

/-- `TextEncoder.encode`: UTF-8 bytes of the string. -/
def utf8Encode (s : List Char) : List Nat :=
  s.flatMap utf8EncodeChar

/-- One step of strict UTF-8 decoding: the scalar value encoded at the head
of the byte list and the remaining bytes. Rejects truncated sequences, stray
continuation bytes, overlong forms, surrogate code points and values above
U+10FFFF. -/
def utf8DecodeOne : List Nat → Option (Nat × List Nat)
  | [] => none
  | b :: t =>
    if b < 0x80 then some (b, t)
    else if b < 0xC2 then none
    else if b < 0xE0 then
      match t with
      | b2 :: t2 =>
        if 0x80 ≤ b2 ∧ b2 < 0xC0 then
          some ((b - 0xC0) * 64 + (b2 - 0x80), t2)
        else none
      | [] => none
    else if b < 0xF0 then
      match t with
      | b2 :: b3 :: t3 =>
        if 0x80 ≤ b2 ∧ b2 < 0xC0 ∧ 0x80 ≤ b3 ∧ b3 < 0xC0 then
          if (b - 0xE0) * 4096 + (b2 - 0x80) * 64 + (b3 - 0x80) < 0x800 ∨
              (0xD800 ≤ (b - 0xE0) * 4096 + (b2 - 0x80) * 64 + (b3 - 0x80) ∧
                (b - 0xE0) * 4096 + (b2 - 0x80) * 64 + (b3 - 0x80) < 0xE000)
            then none
          else some ((b - 0xE0) * 4096 + (b2 - 0x80) * 64 + (b3 - 0x80), t3)
        else none
      | _ => none
    else if b < 0xF5 then
      match t with
      | b2 :: b3 :: b4 :: t4 =>
        if 0x80 ≤ b2 ∧ b2 < 0xC0 ∧ 0x80 ≤ b3 ∧ b3 < 0xC0 ∧
            0x80 ≤ b4 ∧ b4 < 0xC0 then
          if (b - 0xF0) * 262144 + (b2 - 0x80) * 4096 + (b3 - 0x80) * 64 +
                (b4 - 0x80) < 0x10000 ∨
              0x110000 ≤ (b - 0xF0) * 262144 + (b2 - 0x80) * 4096 +
                (b3 - 0x80) * 64 + (b4 - 0x80) then none
          else some ((b - 0xF0) * 262144 + (b2 - 0x80) * 4096 +
            (b3 - 0x80) * 64 + (b4 - 0x80), t4)
        else none
      | _ => none
    else none

/-- Fuel-indexed strict UTF-8 decode loop (each step consumes at least one
byte, so `l.length` fuel always suffices). -/
def utf8DecodeF : Nat → List Nat → Option (List Char)
  | _, [] => some []
  | 0, _ :: _ => none
  | f + 1, b :: t =>
    match utf8DecodeOne (b :: t) with
    | none => none
    | some (n, rest) => (utf8DecodeF f rest).map (fun r => Char.ofNat n :: r)

/-- Strict UTF-8 decoding, as performed by `decodeURIComponent` on the
percent-escaped byte string. -/
def utf8Decode (l : List Nat) : Option (List Char) :=
  utf8DecodeF l.length l

/-- `base64UrlDecode` from `src/app/utils/common.ts`: base64url to base64,
`atob`, then the percent-escape trick feeding `decodeURIComponent`, i.e. a
strict UTF-8 decode of the bytes. `none` models the caught exception path
(the function then throws `Error("Invalid Base64 encoding")`). -/
def base64UrlDecodeStr (s : List Char) : Option (List Char) :=
  match atobDecode (base64UrlToBase64 s) with
  | none => none
  | some bytes => utf8Decode bytes

/-- `base64UrlEncode` from the encoder module: UTF-8 encode, then
`uint8ArrayToBase64Url`. -/
def base64UrlEncodeStr (s : List Char) : List Char :=
  uint8ArrayToBase64Url (utf8Encode s)

/-- JSON values as produced by `JSON.parse`. Numbers keep their source
lexeme: the code under verification never inspects a numeric value. -/
inductive JsonValue where
  | null : JsonValue
  | bool : Bool → JsonValue
  | num : List Char → JsonValue
  | str : List Char → JsonValue
  | arr : List JsonValue → JsonValue
  | obj : List (List Char × JsonValue) → JsonValue

/-- Is this JSON value an object? -/
def JsonValue.isObj : JsonValue → Bool
  | JsonValue.obj _ => true
  | _ => false

/-- JSON insignificant whitespace. -/
def jsonWS (c : Char) : Bool :=
  c = ' ' ∨ c = '\t' ∨ c = '\n' ∨ c = '\r'

/-- Skip JSON whitespace. -/
def skipWS (s : List Char) : List Char :=
  s.dropWhile jsonWS

/-- Value of a hexadecimal digit. -/
def hexVal (c : Char) : Option Nat :=
  if '0' ≤ c ∧ c ≤ '9' then some (c.toNat - '0'.toNat)
  else if 'a' ≤ c ∧ c ≤ 'f' then some (c.toNat - 'a'.toNat + 10)
  else if 'A' ≤ c ∧ c ≤ 'F' then some (c.toNat - 'A'.toNat + 10)
  else none

/-- Body of a JSON string literal, after the opening quote; returns the
content and the input following the closing quote. (A `\u` escape denoting a
surrogate half is mapped through `Char.ofNat`; the code under verification
never inspects such strings.) -/
def parseStringBody : List Char → Option (List Char × List Char)
  | [] => none
  | c :: t =>
    if c = '"' then some ([], t)
    else if c = '\\' then
      match t with
      | [] => none
      | e :: t2 =>
        if e = 'u' then
          match t2 with
          | h1 :: h2 :: h3 :: h4 :: t3 =>
            match hexVal h1, hexVal h2, hexVal h3, hexVal h4 with
            | some v1, some v2, some v3, some v4 =>
              match parseStringBody t3 with
              | some (r, rest) =>
                some (Char.ofNat (v1 * 4096 + v2 * 256 + v3 * 16 + v4) :: r,
                  rest)
              | none => none
            | _, _, _, _ => none
          | _ => none
        else
          match
            (if e = '"' then some '"'
             else if e = '\\' then some '\\'
             else if e = '/' then some '/'
             else if e = 'b' then some (Char.ofNat 8)
             else if e = 'f' then some (Char.ofNat 12)
             else if e = 'n' then some '\n'
             else if e = 'r' then some '\r'
             else if e = 't' then some '\t'
             else none) with
          | some d =>
            match parseStringBody t2 with
            | some (r, rest) => some (d :: r, rest)
            | none => none
          | none => none
    else if c.toNat < 0x20 then none
    else
      match parseStringBody t with
      | some (r, rest) => some (c :: r, rest)
      | none => none

/-- Decimal digit test. -/
def isDigitCh (c : Char) : Bool :=
  '0' ≤ c ∧ c ≤ '9'

/-- The integer digits of a JSON number: `0`, or a nonzero digit followed by
digits. Returns the lexeme part and the rest. -/
def parseIntDigits (s : List Char) : Option (List Char × List Char) :=
  match s with
  | [] => none
  | c :: t =>
    if c = '0' then some ([c], t)
    else if isDigitCh c then some (c :: t.takeWhile isDigitCh, t.dropWhile isDigitCh)
    else none

/-- The optional fraction part `. digits`. -/
def parseFrac (s : List Char) : Option (List Char × List Char) :=
  match s with
  | '.' :: t =>
    match t with
    | c :: _ =>
      if isDigitCh c then
        some ('.' :: t.takeWhile isDigitCh, t.dropWhile isDigitCh)
      else none
    | [] => none
  | _ => some ([], s)

/-- The optional exponent part `(e|E) (+|-)? digits`. -/
def parseExp (s : List Char) : Option (List Char × List Char) :=
  match s with
  | c :: t =>
    if c = 'e' ∨ c = 'E' then
      match t with
      | sgn :: t2 =>
        if sgn = '+' ∨ sgn = '-' then
          match t2 with
          | d :: _ =>
            if isDigitCh d then
              some (c :: sgn :: t2.takeWhile isDigitCh, t2.dropWhile isDigitCh)
            else none
          | [] => none
        else if isDigitCh sgn then
          some (c :: t.takeWhile isDigitCh, t.dropWhile isDigitCh)
        else none
      | [] => none
    else some ([], s)
  | [] => some ([], s)

/-- A JSON number starting at the input (which must start with `-` or a
digit); returns its lexeme and the rest. -/
def parseNumber (s : List Char) : Option (List Char × List Char) :=
  let (sgn, s1) : List Char × List Char :=
    match s with
    | '-' :: t => (['-'], t)
    | _ => ([], s)
  match parseIntDigits s1 with
  | none => none
  | some (d, s2) =>
    match parseFrac s2 with
    | none => none
    | some (f, s3) =>
      match parseExp s3 with
      | none => none
      | some (e, s4) => some (sgn ++ d ++ f ++ e, s4)

/-- Does the input start with the given literal word? -/
def takeLit : List Char → List Char → Option (List Char)
  | [], s => some s
  | c :: w, s =>
    match s with
    | d :: t => if d = c then takeLit w t else none
    | [] => none

mutual

/-- One JSON value, with leading whitespace skipped; returns the value and
the unconsumed input. Fuel bounds the nesting depth. -/
def parseVal : Nat → List Char → Option (JsonValue × List Char)
  | 0, _ => none
  | fuel + 1, s =>
    match skipWS s with
    | [] => none
    | c :: t =>
      if c = 'n' then
        match takeLit ['u', 'l', 'l'] t with
        | some rest => some (JsonValue.null, rest)
        | none => none
      else if c = 't' then
        match takeLit ['r', 'u', 'e'] t with
        | some rest => some (JsonValue.bool true, rest)
        | none => none
      else if c = 'f' then
        match takeLit ['a', 'l', 's', 'e'] t with
        | some rest => some (JsonValue.bool false, rest)
        | none => none
      else if c = '"' then
        match parseStringBody t with
        | some (str, rest) => some (JsonValue.str str, rest)
        | none => none
      else if c = '[' then
        match skipWS t with
        | ']' :: rest => some (JsonValue.arr [], rest)
        | _ =>
          match parseElems fuel t with
          | some (xs, rest) => some (JsonValue.arr xs, rest)
          | none => none
      else if c = '\x7b' then
        match skipWS t with
        | '\x7d' :: rest => some (JsonValue.obj [], rest)
        | _ =>
          match parseMembers fuel t with
          | some (fs, rest) => some (JsonValue.obj fs, rest)
          | none => none
      else if c = '-' ∨ isDigitCh c then
        match parseNumber (c :: t) with
        | some (lex, rest) => some (JsonValue.num lex, rest)
        | none => none
      else none

/-- Array elements after `[`, ending at `]`. -/
def parseElems : Nat → List Char → Option (List JsonValue × List Char)
  | 0, _ => none
  | fuel + 1, s =>
    match parseVal fuel s with
    | none => none
    | some (v, rest) =>
      match skipWS rest with
      | ',' :: t =>
        match parseElems fuel t with
        | some (xs, rest2) => some (v :: xs, rest2)
        | none => none
      | ']' :: t => some ([v], t)
      | _ => none

/-- Object members after the opening brace, ending at the closing brace. -/
def parseMembers : Nat → List Char →
    Option (List (List Char × JsonValue) × List Char)
  | 0, _ => none
  | fuel + 1, s =>
    match skipWS s with
    | '"' :: t =>
      match parseStringBody t with
      | none => none
      | some (k, rest) =>
        match skipWS rest with
        | ':' :: t2 =>
          match parseVal fuel t2 with
          | none => none
          | some (v, rest2) =>
            match skipWS rest2 with
            | ',' :: t3 =>
              match parseMembers fuel t3 with
              | some (fs, rest3) => some ((k, v) :: fs, rest3)
              | none => none
            | '\x7d' :: t3 => some ([(k, v)], t3)
            | _ => none
        | _ => none
    | _ => none

end

/-- `JSON.parse`: one JSON value surrounded by whitespace, consuming the
whole input. `none` models the thrown `SyntaxError`. -/
def jsonParse (s : List Char) : Option JsonValue :=
  match parseVal (s.length + 1) s with
  | some (v, rest) => if skipWS rest = [] then some v else none
  | none => none

/-- Property read on a JavaScript object created by `JSON.parse`: later
duplicate keys win. -/
def jsLookup (fields : List (List Char × JsonValue)) (k : List Char) :
    Option JsonValue :=
  match fields with
  | [] => none
  | (k0, v) :: t =>
    match jsLookup t k with
    | some r => some r
    | none => if k0 = k then some v else none

/-- `header.alg`: property access on a `JSON.parse` result. The outer `none`
models the `TypeError` thrown when the base value is `null`; `some none`
models reading `undefined` (property access on a non-null non-object
primitive yields `undefined`, never a throw). -/
def jsProp (v : JsonValue) (k : List Char) : Option (Option JsonValue) :=
  match v with
  | JsonValue.null => none
  | JsonValue.obj fs => some (jsLookup fs k)
  | _ => some none

/-- The loop `while (r.length > 1 && r[0] === 0 && !(r[1] & 0x80))` of
`rawToDer`: drop leading zero bytes whose successor has a clear high bit. -/
def stripLZ : List Nat → List Nat
  | a :: b :: t =>
    if a = 0 ∧ b % 256 / 128 = 0 then stripLZ (b :: t) else a :: b :: t
  | l => l

/-- `rawToDer`'s high-bit padding: `new Uint8Array(33)` zero-filled, with
the (at most 32) source bytes written at offset 1. -/
def prependZero (l : List Nat) : List Nat :=
  0 :: (l ++ List.replicate (32 - l.length) 0)

/-- `rawToDer` from `src/unnamed/part_005` (the converter used on the
verify side of that variant): split the input into `r = slice(0, 32)` and
`s = slice(32, 64)`, prepend a zero when the high bit of the first byte is
set, strip redundant leading zeros, and emit
`0x30 len 0x02 rlen r 0x02 slen s`. The source performs no length check and
contains no throwing operation, so the model is total. -/
def rawToDer (raw : List Nat) : List Nat :=
  let r0 := jsSlice raw 0 32
  let s0 := jsSlice raw 32 64
  let r1 := if (r0.getD 0 0) % 256 / 128 ≠ 0 then prependZero r0 else r0
  let s1 := if (s0.getD 0 0) % 256 / 128 ≠ 0 then prependZero s0 else s0
  let r := stripLZ r1
  let s := stripLZ s1
  0x30 :: (2 + r.length + 2 + s.length) :: 0x02 :: r.length ::
    (r ++ 0x02 :: s.length :: s)

/-- `derToRaw`'s single-zero strip: `if (r.length > 32 && r[0] === 0)
r = r.slice(1)`. -/
def stripOneLeadingZero (l : List Nat) : List Nat :=
  if 32 < l.length ∧ l.get? 0 = some 0 then l.drop 1 else l

/-- `derToRaw`'s left zero-padding to 32 bytes: `new Uint8Array(32)` with
the source written at offset `32 - length` when shorter than 32. -/
def padTo32 (l : List Nat) : List Nat :=
  if l.length < 32 then List.replicate (32 - l.length) 0 ++ l else l

/-- The INTEGER-field extraction of `derToRaw`: skip two bytes unchecked,
require `0x02` at offset 2, read `rLen` and `r`, require `0x02` after `r`,
read `sLen` and `s`. `none` models the thrown
`Error("Invalid DER signature")` (an out-of-bounds `rLen` read also ends in
that throw, at the tag check over `der[NaN]`); an out-of-bounds `sLen` read
is *not* a failure: `slice(offset, NaN)` silently yields an empty `s`. -/
def derParseInts (der : List Nat) : Option (List Nat × List Nat) :=
  if jsGet der 2 ≠ some 0x02 then none
  else
    match jsGet der 3 with
    | none => none
    | some rLen =>
      if jsGet der (4 + rLen) ≠ some 0x02 then none
      else
        let r0 := jsSlice der 4 (4 + rLen)
        let s0 :=
          match jsGet der (4 + rLen + 1) with
          | none => []
          | some sLen => jsSlice der (4 + rLen + 2) (4 + rLen + 2 + sLen)
        some (r0, s0)

/-- `Uint8Array.prototype.set`: overwrite `dst` with `src` at `off`
(callers establish `off + src.length ≤ dst.length`). -/
def writeAt (dst : List Nat) (off : Nat) (src : List Nat) : List Nat :=
  dst.take off ++ src ++ dst.drop (off + src.length)

/-- `derToRaw` from `src/unnamed/part_004` lines 172-217: a 64-byte input
is passed through unchanged; otherwise the two INTEGER fields are
extracted, one leading zero is stripped from a field longer than 32 bytes,
fields are left-padded to 32 bytes and written into a 64-byte buffer at
offsets 0 and 32. `none` models an uncaught throw: the explicit
`Invalid DER signature` error, or the `RangeError` raised by
`raw.set` when a field is still too long for the remaining space. -/
def derToRaw (der : List Nat) : Option (List Nat) :=
  if der.length = 64 then some der
  else
    match derParseInts der with
    | none => none
    | some (r0, s0) =>
      let r := padTo32 (stripOneLeadingZero r0)
      let s := padTo32 (stripOneLeadingZero s0)
      if 64 < r.length then none
      else if 32 < s.length then none
      else some (writeAt (writeAt (List.replicate 64 0) 0 r) 32 s)

/-- `DecodedJWT` result record of `decodeJWT`. -/
structure DecodedJWT where
  header : Option JsonValue
  payload : Option JsonValue
  signature : List Char
  isValid : Bool
  error : Option String

/-- `VerificationResult` record of `verifyJWTSignature`. -/
structure VerificationResult where
  verified : Bool
  error : Option String
  algorithm : Option String
deriving DecidableEq

/-- `EncodeResult` record of `encodeJWT`. -/
structure EncodeResult where
  token : List Char
  error : Option String
deriving DecidableEq

/-- The message of the `Error` thrown by `base64UrlDecode` on any decoding
failure (exact string from the source). -/
def b64ErrMsg : String := "Invalid Base64 encoding"

/-- Stand-in for the engine-specific `SyntaxError` message of a failed
`JSON.parse` (its exact text is not part of the program). -/
def jsonErrMsg : String := "Unexpected token in JSON"

/-- Stand-in for the engine-specific message of an exception caught at an
operation boundary. -/
def excMsg : String := "error"

/-- The tail of `decodeJWT` once the three segments are in hand: decode and
parse the header, then the payload; a payload failure keeps the already
parsed header (`{...result}` spread). -/
def decodeJWT3 (p0 p1 p2 : List Char) : DecodedJWT :=
  match base64UrlDecodeStr p0 with
  | none => ⟨none, none, [], false, some ("Invalid header: " ++ b64ErrMsg)⟩
  | some h =>
    match jsonParse h with
    | none => ⟨none, none, [], false, some ("Invalid header: " ++ jsonErrMsg)⟩
    | some hv =>
      match base64UrlDecodeStr p1 with
      | none =>
        ⟨some hv, none, [], false, some ("Invalid payload: " ++ b64ErrMsg)⟩
      | some pl =>
        match jsonParse pl with
        | none =>
          ⟨some hv, none, [], false,
            some ("Invalid payload: " ++ jsonErrMsg)⟩
        | some pv => ⟨some hv, some pv, p2, true, none⟩

/-- `decodeJWT` from `src/app/utils/decode.ts` lines 33-78. -/
def decodeJWT (token : List Char) : DecodedJWT :=
  if token = [] ∨ jsTrim token = [] then
    ⟨none, none, [], false, some "No token provided"⟩
  else if (splitDot (jsTrim token)).length ≠ 3 then
    ⟨none, none, [], false,
      some ("Invalid JWT structure. Expected 3 parts, got " ++
        toString (splitDot (jsTrim token)).length)⟩
  else
    decodeJWT3 ((splitDot (jsTrim token)).getD 0 [])
      ((splitDot (jsTrim token)).getD 1 [])
      ((splitDot (jsTrim token)).getD 2 [])

/-- The cryptographic back-end (Web Crypto `sign`/`verify` together with
key import, including the PEM stripping feeding it): an external
collaborator of the codec core, abstracted as parameters. HMAC-SHA256 is a
deterministic total function of key bytes and message bytes; the asymmetric
primitives take the PEM key text and may fail (`none` models a throw). -/
structure CryptoPrims where
  hmacSha256 : List Nat → List Nat → List Nat
  rsaSign : List Char → List Nat → Option (List Nat)
  rsaVerify : List Char → List Nat → List Nat → Option Bool
  ecdsaSign : List Char → List Nat → Option (List Nat)
  ecdsaVerify : List Char → List Nat → List Nat → Option Bool

/-- `SUPPORTED_ALGORITHMS`. -/
def SUPPORTED_ALGORITHMS : List String := ["HS256", "RS256", "ES256"]

/-- `SUPPORTED_ALGORITHMS.includes(algorithm)`: strict-equality membership,
so only the three exact strings pass. -/
def isSupportedAlgV (v : Option JsonValue) : Bool :=
  match v with
  | some (JsonValue.str s) => SUPPORTED_ALGORITHMS.contains (String.mk s)
  | _ => false

/-- The algorithm name once the membership test has passed. -/
def algNameOf (v : Option JsonValue) : String :=
  match v with
  | some (JsonValue.str s) => String.mk s
  | _ => ""

/-- JavaScript template-literal stringification of the `alg` value, used
only inside error messages (array/object cases are approximated; no claim
inspects them). -/
def jsToString (v : Option JsonValue) : String :=
  match v with
  | none => "undefined"
  | some JsonValue.null => "null"
  | some (JsonValue.bool true) => "true"
  | some (JsonValue.bool false) => "false"
  | some (JsonValue.num l) => String.mk l
  | some (JsonValue.str s) => String.mk s
  | some (JsonValue.arr _) => ""
  | some (JsonValue.obj _) => "[object Object]"

/-- JavaScript truthiness of a property-read result. -/
def jsTruthy (v : Option JsonValue) : Bool :=
  match v with
  | none => false
  | some JsonValue.null => false
  | some (JsonValue.bool b) => b
  | some (JsonValue.str s) => s ≠ []
  | some (JsonValue.num l) =>
    ¬ ((l.takeWhile (fun c => c ≠ 'e' ∧ c ≠ 'E')).filter isDigitCh).all
        (fun c => c = '0')
  | some (JsonValue.arr _) => true
  | some (JsonValue.obj _) => true

/-- The per-algorithm branch of `verifyJWTSignature`
(`src/app/utils/decode.ts` lines 153-215): the signature segment is
base64url-decoded to bytes before the dispatch (a failure there is caught
and reported as `Verification failed`), HS256 recomputes the HMAC and
compares base64url strings, RS256/ES256 call the back-end verify — for
ES256 directly on the raw signature bytes, with no raw-to-DER conversion,
mirroring the encode side. -/
def verifyDispatch (p : CryptoPrims) (key hB64 pB64 sB64 : List Char)
    (a : String) : VerificationResult :=
  let dataBytes := utf8Encode (hB64 ++ '.' :: pB64)
  match base64UrlToUint8Array sB64 with
  | none => ⟨false, some ("Verification failed: " ++ excMsg), some a⟩
  | some signatureBytes =>
    if a = "HS256" then
      let computed :=
        uint8ArrayToBase64Url (p.hmacSha256 (utf8Encode key) dataBytes)
      if computed = sB64 then ⟨true, none, some a⟩
      else ⟨false, some "Signature does not match", some a⟩
    else if a = "RS256" then
      match p.rsaVerify key signatureBytes dataBytes with
      | none => ⟨false, some ("Verification failed: " ++ excMsg), some a⟩
      | some ok =>
        ⟨ok, if ok then none else some "Signature does not match", some a⟩
    else if a = "ES256" then
      match p.ecdsaVerify key signatureBytes dataBytes with
      | none => ⟨false, some ("Verification failed: " ++ excMsg), some a⟩
      | some ok =>
        ⟨ok, if ok then none else some "Signature does not match", some a⟩
    else ⟨false, some "Signature does not match", some a⟩

/-- `verifyJWTSignature` after the structure check, on the three segments:
header decode (caught), then the unguarded `header.alg` property read —
`none` propagates the uncaught `TypeError` when the header is JSON `null` —
then the supported-algorithm check and the dispatch. -/
def verifyParts (p : CryptoPrims) (key hB64 pB64 sB64 : List Char) :
    Option VerificationResult :=
  match (base64UrlDecodeStr hB64).bind jsonParse with
  | none => some ⟨false, some "Invalid header", none⟩
  | some hv =>
    match jsProp hv ['a', 'l', 'g'] with
    | none => none
    | some algV =>
      if ¬ isSupportedAlgV algV then
        some ⟨false,
          some ("Algorithm \"" ++ jsToString algV ++
            "\" is not supported. Supported: HS256, RS256, ES256"),
          some (jsToString algV)⟩
      else some (verifyDispatch p key hB64 pB64 sB64 (algNameOf algV))

/-- `verifyJWTSignature` from `src/app/utils/decode.ts` lines 118-216.
`none` models a rejected promise (an uncaught throw inside the async
function). -/
def verifyJWTSignature (p : CryptoPrims) (token key : List Char) :
    Option VerificationResult :=
  if token = [] ∨ key = [] then
    some ⟨false, some "Token and key are required", none⟩
  else if (splitDot (jsTrim token)).length ≠ 3 then
    some ⟨false, some "Invalid JWT structure", none⟩
  else
    verifyParts p key ((splitDot (jsTrim token)).getD 0 [])
      ((splitDot (jsTrim token)).getD 1 [])
      ((splitDot (jsTrim token)).getD 2 [])

/-- The per-algorithm branch of `encodeJWT` (`src/unnamed/part_004` lines
456-528): HS256 signs with the HMAC of the secret, RS256/ES256 with the
back-end signer — the ES256 signature bytes are base64url-encoded directly
(the back-end emits raw R‖S; no DER-to-raw conversion on this path). -/
def encodeDispatch (p : CryptoPrims) (key hB64 pB64 : List Char)
    (a : String) : EncodeResult :=
  let signingInputBytes := utf8Encode (hB64 ++ '.' :: pB64)
  if a = "HS256" then
    ⟨hB64 ++ '.' :: pB64 ++ '.' ::
      uint8ArrayToBase64Url (p.hmacSha256 (utf8Encode key) signingInputBytes),
      none⟩
  else if a = "RS256" then
    match p.rsaSign key signingInputBytes with
    | none => ⟨[], some ("Encoding failed: " ++ excMsg)⟩
    | some sig =>
      ⟨hB64 ++ '.' :: pB64 ++ '.' :: uint8ArrayToBase64Url sig, none⟩
  else if a = "ES256" then
    match p.ecdsaSign key signingInputBytes with
    | none => ⟨[], some ("Encoding failed: " ++ excMsg)⟩
    | some sig =>
      ⟨hB64 ++ '.' :: pB64 ++ '.' :: uint8ArrayToBase64Url sig, none⟩
  else ⟨[], some "Unsupported algorithm"⟩

/-- `encodeJWT` from `src/unnamed/part_004` lines 427-528. The header is a
JavaScript object (association list); `stringify` abstracts
`JSON.stringify` (total on acyclic values). -/
def encodeJWT (p : CryptoPrims) (stringify : JsonValue → List Char)
    (header : List (List Char × JsonValue)) (payload : JsonValue)
    (key : List Char) : EncodeResult :=
  if ¬ jsTruthy (jsLookup header ['a', 'l', 'g']) then
    ⟨[], some "Header must include \x27alg\x27 field"⟩
  else if ¬ isSupportedAlgV (jsLookup header ['a', 'l', 'g']) then
    ⟨[], some ("Algorithm \"" ++ jsToString (jsLookup header ['a', 'l', 'g'])
      ++ "\" is not supported. Supported: HS256, RS256, ES256")⟩
  else if key = [] then
    if algNameOf (jsLookup header ['a', 'l', 'g']) = "HS256" then
      ⟨[], some "Secret is required for signing"⟩
    else ⟨[], some "Private key is required for signing"⟩
  else
    encodeDispatch p key
      (base64UrlEncodeStr (stringify (JsonValue.obj header)))
      (base64UrlEncodeStr (stringify payload))
      (algNameOf (jsLookup header ['a', 'l', 'g']))

/-- Crypto back-end used to instantiate the parametric theorems on concrete
inputs: a constant HMAC and constant asymmetric signatures accepted by the
matching verifier. -/
def wPrims : CryptoPrims where
  hmacSha256 := fun _ _ => [1, 2, 3]
  rsaSign := fun _ _ => some [9]
  rsaVerify := fun _ sig _ => some (decide (sig = [9]))
  ecdsaSign := fun _ _ => some [7]
  ecdsaVerify := fun _ sig _ => some (decide (sig = [7]))

/-- A concrete `JSON.stringify` stand-in for the concrete header below. -/
def wStringify : JsonValue → List Char :=
  fun _ => "\x7b\"alg\":\"HS256\"\x7d".toList

/-- A concrete header object carrying `alg: "HS256"`. -/
def wHeader : List (List Char × JsonValue) :=
  [(['a', 'l', 'g'], JsonValue.str ['H', 'S', '2', '5', '6'])]

section Lemmas

/-! ### List, split and trim lemmas -/

theorem splitDot_ne_nil (l : List Char) : splitDot l ≠ [] := by
  cases l with
  | nil => simp [splitDot]
  | cons c t =>
    simp only [splitDot]
    cases h : splitDot t with
    | nil => simp
    | cons seg rest =>
      by_cases hc : c = '.' <;> simp [hc]

theorem splitDot_no_dot (a : List Char) (h : '.' ∉ a) : splitDot a = [a] := by
  induction a with
  | nil => rfl
  | cons c t ih =>
    have hc : c ≠ '.' := fun hc => h (hc ▸ List.mem_cons_self c t)
    have ht : '.' ∉ t := fun hm => h (List.mem_cons_of_mem c hm)
    simp only [splitDot, ih ht, hc, if_false]

theorem splitDot_append (a rest : List Char) (h : '.' ∉ a) :
    splitDot (a ++ '.' :: rest) = a :: splitDot rest := by
  induction a with
  | nil =>
    simp only [List.nil_append, splitDot]
    cases hs : splitDot rest with
    | nil => exact absurd hs (splitDot_ne_nil rest)
    | cons seg r => simp
  | cons c t ih =>
    have hc : c ≠ '.' := fun hc => h (hc ▸ List.mem_cons_self c t)
    have ht : '.' ∉ t := fun hm => h (List.mem_cons_of_mem c hm)
    show splitDot (c :: (t ++ '.' :: rest)) = (c :: t) :: splitDot rest
    simp only [splitDot, ih ht]
    simp [hc]

theorem dropWhile_eq_self_of_not (p : Char → Bool) (l : List Char)
    (h : ∀ c ∈ l, p c = false) : l.dropWhile p = l := by
  cases l with
  | nil => rfl
  | cons c t => simp [List.dropWhile, h c (List.mem_cons_self c t)]

theorem dropWhile_eq_nil_of_all (p : Char → Bool) (l : List Char)
    (h : ∀ c ∈ l, p c = true) : l.dropWhile p = [] := by
  induction l with
  | nil => rfl
  | cons c t ih =>
    simp only [List.dropWhile, h c (List.mem_cons_self c t)]
    exact ih fun d hd => h d (List.mem_cons_of_mem c hd)

theorem jsTrim_eq_self (l : List Char) (h : ∀ c ∈ l, jsWS c = false) :
    jsTrim l = l := by
  unfold jsTrim
  rw [dropWhile_eq_self_of_not _ _ h,
    dropWhile_eq_self_of_not _ _ (fun c hc => h c (List.mem_reverse.1 hc)),
    List.reverse_reverse]

theorem jsTrim_eq_nil (l : List Char) (h : ∀ c ∈ l, jsWS c = true) :
    jsTrim l = [] := by
  unfold jsTrim
  rw [dropWhile_eq_nil_of_all _ _ h]
  rfl

/-! ### Base64 alphabet and round-trip lemmas -/

theorem b64Char_props : ∀ n, n < 64 →
    urlUnrep (urlRep (b64Char n)) = b64Char n ∧ b64Char n ≠ '=' ∧
    b64AsciiWS (b64Char n) = false ∧ urlRep (b64Char n) ≠ '=' ∧
    urlRep (b64Char n) ≠ '.' ∧ jsWS (urlRep (b64Char n)) = false := by
  decide

theorem b64Index_b64Char : ∀ n, n < 64 → b64Index (b64Char n) = some n := by
  decide

theorem toSextets_lt :
    ∀ B : List Nat, (∀ b ∈ B, b < 256) → ∀ x ∈ toSextets B, x < 64
  | [], _, x, hx => by simp [toSextets] at hx
  | [a], h, x, hx => by
    have ha := h a (by simp)
    simp only [toSextets, List.mem_cons, List.not_mem_nil, or_false] at hx
    rcases hx with rfl | rfl <;> omega
  | [a, b], h, x, hx => by
    have ha := h a (by simp)
    have hb := h b (by simp)
    simp only [toSextets, List.mem_cons, List.not_mem_nil, or_false] at hx
    rcases hx with rfl | rfl | rfl <;> omega
  | a :: b :: c :: t, h, x, hx => by
    have ha := h a (by simp)
    have hb := h b (by simp)
    have hc := h c (by simp)
    simp only [toSextets, List.mem_cons] at hx
    rcases hx with rfl | rfl | rfl | rfl | hx
    · omega
    · omega
    · omega
    · omega
    · exact toSextets_lt t
        (fun y hy => h y (by simp [List.mem_cons, hy])) x hx

theorem sextetsToBytes_toSextets :
    ∀ B : List Nat, (∀ b ∈ B, b < 256) → sextetsToBytes (toSextets B) = B
  | [], _ => rfl
  | [a], h => by
    have ha := h a (by simp)
    simp only [toSextets, sextetsToBytes, List.cons.injEq, and_true]
    omega
  | [a, b], h => by
    have ha := h a (by simp)
    have hb := h b (by simp)
    simp only [toSextets, sextetsToBytes, List.cons.injEq, and_true]
    omega
  | a :: b :: c :: t, h => by
    have ha := h a (by simp)
    have hb := h b (by simp)
    have hc := h c (by simp)
    have ih := sextetsToBytes_toSextets t
      (fun y hy => h y (by simp [List.mem_cons, hy]))
    simp only [toSextets, sextetsToBytes, ih, List.cons.injEq, and_true]
    omega

theorem sextetsOf_map (sx : List Nat) (h : ∀ x ∈ sx, x < 64) :
    sextetsOf (sx.map b64Char) = some sx := by
  induction sx with
  | nil => rfl
  | cons x t ih =>
    have hx := b64Index_b64Char x (h x (by simp))
    have ht := ih fun y hy => h y (by simp [hy])
    simp only [List.map_cons, sextetsOf, hx, ht]

theorem b64PadLen_add3 (n : Nat) : b64PadLen (n + 3) = b64PadLen n := by
  unfold b64PadLen
  rw [Nat.add_mod_right]

theorem toSextets_add_padLen :
    ∀ B : List Nat,
      (toSextets B).length + b64PadLen B.length = 4 * ((B.length + 2) / 3)
  | [] => by simp [toSextets, b64PadLen]
  | [_] => by simp [toSextets, b64PadLen]
  | [_, _] => by simp [toSextets, b64PadLen]
  | a :: b :: c :: t => by
    have ih := toSextets_add_padLen t
    have hl : t.length + 1 + 1 + 1 = t.length + 3 := by omega
    simp only [toSextets, List.length_cons, hl, b64PadLen_add3]
    omega

theorem b64PadLen_le (n : Nat) : b64PadLen n ≤ 2 := by
  unfold b64PadLen
  split
  · omega
  · split <;> omega

theorem mem_map_b64Char (B : List Nat) (hB : ∀ b ∈ B, b < 256)
    (c : Char) (hc : c ∈ (toSextets B).map b64Char) :
    ∃ n, n < 64 ∧ c = b64Char n := by
  rcases List.mem_map.1 hc with ⟨n, hn, rfl⟩
  exact ⟨n, toSextets_lt B hB n hn, rfl⟩

theorem dropWhile_replicate_append (p : Char → Bool) (a : Char)
    (hp : p a = true) (k : Nat) (l : List Char) :
    (List.replicate k a ++ l).dropWhile p = l.dropWhile p := by
  induction k with
  | zero => rfl
  | succ k ih => simp [List.replicate_succ, List.dropWhile, hp, ih]

theorem rstripEq_append (m : List Char) (k : Nat)
    (hm : ∀ c ∈ m, c ≠ '=') :
    rstripEq (m ++ List.replicate k '=') = m := by
  unfold rstripEq
  rw [List.reverse_append, List.reverse_replicate,
    dropWhile_replicate_append _ _ (by decide),
    dropWhile_eq_self_of_not _ _ (fun c hc => by
      have := hm c (List.mem_reverse.1 hc)
      simpa using this),
    List.reverse_reverse]

theorem getLast_ne_of_forall (m : List Char) (hm : ∀ c ∈ m, c ≠ '=') :
    m.getLast? ≠ some '=' := by
  intro h
  rcases List.mem_getLast?_eq_getLast (show '=' ∈ m.getLast? from h) with
    ⟨hne, heq⟩
  exact hm _ (by rw [heq]; exact List.getLast_mem hne) rfl

theorem dropTrailingEq_pads (m : List Char) (k : Nat) (hk : k ≤ 2)
    (hm : ∀ c ∈ m, c ≠ '=') :
    dropTrailingEq (m ++ List.replicate k '=') = m := by
  interval_cases k
  · simp only [List.replicate, List.append_nil, dropTrailingEq]
    rw [if_neg (getLast_ne_of_forall m hm)]
  · show dropTrailingEq (m ++ ['=']) = m
    unfold dropTrailingEq
    rw [if_pos (by rw [List.getLast?_concat]), List.dropLast_concat,
      if_neg (getLast_ne_of_forall m hm)]
  · show dropTrailingEq (m ++ ['=', '=']) = m
    unfold dropTrailingEq
    have h2 : m ++ ['=', '='] = (m ++ ['=']) ++ ['='] := by simp
    rw [h2, if_pos (by rw [List.getLast?_concat]), List.dropLast_concat,
      if_pos (by rw [List.getLast?_concat]), List.dropLast_concat]

theorem uint8ArrayToBase64Url_eq (B : List Nat) (h : ∀ b ∈ B, b < 256) :
    uint8ArrayToBase64Url B = ((toSextets B).map b64Char).map urlRep := by
  have hmem := mem_map_b64Char B h
  unfold uint8ArrayToBase64Url btoaEncode
  rw [List.map_append, List.map_replicate]
  have hrep : urlRep '=' = '=' := by decide
  rw [hrep, rstripEq_append _ _ (fun c hc => by
    rcases List.mem_map.1 hc with ⟨d, hd, rfl⟩
    rcases hmem d hd with ⟨n, hn, rfl⟩
    exact (b64Char_props n hn).2.2.2.1)]

theorem uint8ArrayToBase64Url_chars (B : List Nat) (h : ∀ b ∈ B, b < 256) :
    ∀ c ∈ uint8ArrayToBase64Url B, jsWS c = false ∧ c ≠ '.' := by
  rw [uint8ArrayToBase64Url_eq B h]
  intro c hc
  rcases List.mem_map.1 hc with ⟨d, hd, rfl⟩
  rcases mem_map_b64Char B h d hd with ⟨n, hn, rfl⟩
  exact ⟨(b64Char_props n hn).2.2.2.2.2, (b64Char_props n hn).2.2.2.2.1⟩

theorem b64_bytes_roundtrip (B : List Nat) (h : ∀ b ∈ B, b < 256) :
    base64UrlToUint8Array (uint8ArrayToBase64Url B) = some B := by
  have hmem := mem_map_b64Char B h
  have hne : ∀ c ∈ (toSextets B).map b64Char, c ≠ '=' := fun c hc => by
    rcases hmem c hc with ⟨n, hn, rfl⟩
    exact (b64Char_props n hn).2.1
  have hlen := toSextets_add_padLen B
  have hple := b64PadLen_le B.length
  have hstrip := uint8ArrayToBase64Url_eq B h
  -- padding restoration returns the exact btoa output
  have hunrep : (((toSextets B).map b64Char).map urlRep).map urlUnrep =
      (toSextets B).map b64Char := by
    rw [List.map_map]
    have hid : ∀ c ∈ (toSextets B).map b64Char,
        (urlUnrep ∘ urlRep) c = id c := fun c hc => by
      rcases hmem c hc with ⟨n, hn, rfl⟩
      exact (b64Char_props n hn).1
    rw [List.map_congr_left hid, List.map_id]
  have hpad : base64UrlToBase64 (uint8ArrayToBase64Url B) = btoaEncode B := by
    rw [hstrip]
    unfold base64UrlToBase64
    simp only [hunrep, List.length_map]
    by_cases h0 : (toSextets B).length % 4 = 0
    · rw [if_pos h0]
      have hp0 : b64PadLen B.length = 0 := by omega
      simp [btoaEncode, hp0]
    · rw [if_neg h0]
      have hpv : 4 - (toSextets B).length % 4 = b64PadLen B.length := by
        omega
      rw [hpv]
      rfl
  -- the forgiving decode undoes the encode
  have hfilter : (btoaEncode B).filter (fun c => ¬ b64AsciiWS c) =
      btoaEncode B := by
    rw [List.filter_eq_self]
    intro c hc
    unfold btoaEncode at hc
    rcases List.mem_append.1 hc with hc | hc
    · rcases hmem c hc with ⟨n, hn, rfl⟩
      simpa using (b64Char_props n hn).2.2.1
    · have hce : c = '=' := List.eq_of_mem_replicate hc
      subst hce; decide
  have hprep : atobPrep (btoaEncode B) = (toSextets B).map b64Char := by
    unfold atobPrep
    rw [hfilter]
    have hlen4 : (btoaEncode B).length % 4 = 0 := by
      unfold btoaEncode
      simp only [List.length_append, List.length_map, List.length_replicate]
      omega
    rw [if_pos hlen4]
    unfold btoaEncode
    exact dropTrailingEq_pads _ _ hple hne
  have hnot1 : ((toSextets B).map b64Char).length % 4 ≠ 1 := by
    simp only [List.length_map]
    omega
  unfold base64UrlToUint8Array
  rw [hpad]
  unfold atobDecode
  rw [hprep, if_neg hnot1, sextetsOf_map (toSextets B) (toSextets_lt B h)]
  simp [sextetsToBytes_toSextets B h]

/-! ### UTF-8 lemmas -/

theorem utf8EncodeChar_ne_nil (c : Char) : utf8EncodeChar c ≠ [] := by
  simp only [utf8EncodeChar]
  split_ifs <;> simp

theorem utf8EncodeChar_lt (c : Char) : ∀ b ∈ utf8EncodeChar c, b < 256 := by
  intro b hb
  have hvt : c.toNat = c.val.toNat := rfl
  have hv : c.toNat < 0x110000 := by
    rcases c.valid with h | h <;> omega
  simp only [utf8EncodeChar] at hb
  split_ifs at hb <;> fin_cases hb <;> omega

theorem utf8Encode_lt (s : List Char) : ∀ b ∈ utf8Encode s, b < 256 := by
  intro b hb
  unfold utf8Encode at hb
  rcases List.mem_flatMap.1 hb with ⟨c, _, hc⟩
  exact utf8EncodeChar_lt c b hc

theorem utf8DecodeOne_encodeChar (c : Char) (rest : List Nat) :
    utf8DecodeOne (utf8EncodeChar c ++ rest) = some (c.toNat, rest) := by
  have hvt : c.toNat = c.val.toNat := rfl
  rcases c.valid with hval | hval
  all_goals by_cases h1 : c.toNat < 0x80
  case pos | pos =>
    have he : utf8EncodeChar c = [c.toNat] := by
      simp only [utf8EncodeChar]
      rw [if_pos h1]
    rw [he, List.cons_append, List.nil_append]
    simp only [utf8DecodeOne]
    rw [if_pos h1]
  all_goals by_cases h2 : c.toNat < 0x800
  case pos | pos =>
    have he : utf8EncodeChar c = [0xC0 + c.toNat / 64, 0x80 + c.toNat % 64] := by
      simp only [utf8EncodeChar]
      rw [if_neg h1, if_pos h2]
    rw [he]
    simp only [List.cons_append, List.nil_append, utf8DecodeOne]
    rw [if_neg (by omega : ¬ 0xC0 + c.toNat / 64 < 0x80),
      if_neg (by omega : ¬ 0xC0 + c.toNat / 64 < 0xC2),
      if_pos (by omega : 0xC0 + c.toNat / 64 < 0xE0),
      if_pos (⟨by omega, by omega⟩ :
        0x80 ≤ 0x80 + c.toNat % 64 ∧ 0x80 + c.toNat % 64 < 0xC0)]
    have harg : (0xC0 + c.toNat / 64 - 0xC0) * 64 +
        (0x80 + c.toNat % 64 - 0x80) = c.toNat := by omega
    rw [harg]
  all_goals by_cases h3 : c.toNat < 0x10000
  case pos | pos =>
    have he : utf8EncodeChar c = [0xE0 + c.toNat / 4096,
        0x80 + c.toNat / 64 % 64, 0x80 + c.toNat % 64] := by
      simp only [utf8EncodeChar]
      rw [if_neg h1, if_neg h2, if_pos h3]
    rw [he]
    simp only [List.cons_append, List.nil_append, utf8DecodeOne]
    rw [if_neg (by omega : ¬ 0xE0 + c.toNat / 4096 < 0x80),
      if_neg (by omega : ¬ 0xE0 + c.toNat / 4096 < 0xC2),
      if_neg (by omega : ¬ 0xE0 + c.toNat / 4096 < 0xE0),
      if_pos (by omega : 0xE0 + c.toNat / 4096 < 0xF0),
      if_pos (⟨by omega, by omega, by omega, by omega⟩ :
        0x80 ≤ 0x80 + c.toNat / 64 % 64 ∧ 0x80 + c.toNat / 64 % 64 < 0xC0 ∧
        0x80 ≤ 0x80 + c.toNat % 64 ∧ 0x80 + c.toNat % 64 < 0xC0)]
    have harg : (0xE0 + c.toNat / 4096 - 0xE0) * 4096 +
        (0x80 + c.toNat / 64 % 64 - 0x80) * 64 +
        (0x80 + c.toNat % 64 - 0x80) = c.toNat := by omega
    rw [harg, if_neg (by omega :
      ¬ (c.toNat < 0x800 ∨ (0xD800 ≤ c.toNat ∧ c.toNat < 0xE000)))]
  case neg | neg =>
    have he : utf8EncodeChar c = [0xF0 + c.toNat / 262144,
        0x80 + c.toNat / 4096 % 64, 0x80 + c.toNat / 64 % 64,
        0x80 + c.toNat % 64] := by
      simp only [utf8EncodeChar]
      rw [if_neg h1, if_neg h2, if_neg h3]
    rw [he]
    simp only [List.cons_append, List.nil_append, utf8DecodeOne]
    rw [if_neg (by omega : ¬ 0xF0 + c.toNat / 262144 < 0x80),
      if_neg (by omega : ¬ 0xF0 + c.toNat / 262144 < 0xC2),
      if_neg (by omega : ¬ 0xF0 + c.toNat / 262144 < 0xE0),
      if_neg (by omega : ¬ 0xF0 + c.toNat / 262144 < 0xF0),
      if_pos (by omega : 0xF0 + c.toNat / 262144 < 0xF5),
      if_pos (⟨by omega, by omega, by omega, by omega, by omega, by omega⟩ :
        0x80 ≤ 0x80 + c.toNat / 4096 % 64 ∧ 0x80 + c.toNat / 4096 % 64 < 0xC0 ∧
        0x80 ≤ 0x80 + c.toNat / 64 % 64 ∧ 0x80 + c.toNat / 64 % 64 < 0xC0 ∧
        0x80 ≤ 0x80 + c.toNat % 64 ∧ 0x80 + c.toNat % 64 < 0xC0)]
    have harg : (0xF0 + c.toNat / 262144 - 0xF0) * 262144 +
        (0x80 + c.toNat / 4096 % 64 - 0x80) * 4096 +
        (0x80 + c.toNat / 64 % 64 - 0x80) * 64 +
        (0x80 + c.toNat % 64 - 0x80) = c.toNat := by omega
    rw [harg, if_neg (by omega :
      ¬ (c.toNat < 0x10000 ∨ 0x110000 ≤ c.toNat))]

theorem utf8DecodeOne_length (l : List Nat) (n : Nat) (rest : List Nat)
    (h : utf8DecodeOne l = some (n, rest)) : rest.length < l.length := by
  rcases l with _ | ⟨b, _ | ⟨b2, _ | ⟨b3, _ | ⟨b4, t⟩⟩⟩⟩
  · simp [utf8DecodeOne] at h
  all_goals
    simp only [utf8DecodeOne] at h
  all_goals
    split_ifs at h <;> simp_all <;> omega

theorem utf8DecodeF_fuel : ∀ (f : Nat) (l : List Nat), l.length ≤ f →
    utf8DecodeF f l = utf8DecodeF l.length l := by
  intro f
  induction f using Nat.strong_induction_on with
  | _ f ih =>
    intro l hl
    cases l with
    | nil => cases f <;> rfl
    | cons b t =>
      cases f with
      | zero => simp at hl
      | succ f =>
        simp only [List.length_cons]
        show utf8DecodeF (f + 1) (b :: t) = utf8DecodeF (t.length + 1) (b :: t)
        simp only [utf8DecodeF]
        cases hone : utf8DecodeOne (b :: t) with
        | none => rfl
        | some pr =>
          obtain ⟨n, rest⟩ := pr
          have hlen := utf8DecodeOne_length _ _ _ hone
          simp only [List.length_cons] at hlen hl
          show (utf8DecodeF f rest).map (fun r => Char.ofNat n :: r) =
            (utf8DecodeF t.length rest).map (fun r => Char.ofNat n :: r)
          rw [ih f (by omega) rest (by omega),
            ih t.length (by omega) rest (by omega)]

theorem utf8Decode_cons (b : Nat) (t : List Nat) :
    utf8Decode (b :: t) =
      match utf8DecodeOne (b :: t) with
      | none => none
      | some (n, rest) =>
        (utf8Decode rest).map (fun r => Char.ofNat n :: r) := by
  show utf8DecodeF (b :: t).length (b :: t) = _
  simp only [List.length_cons, utf8DecodeF]
  cases hone : utf8DecodeOne (b :: t) with
  | none => rfl
  | some pr =>
    obtain ⟨n, rest⟩ := pr
    have hlen := utf8DecodeOne_length _ _ _ hone
    simp only [List.length_cons] at hlen
    show (utf8DecodeF t.length rest).map (fun r => Char.ofNat n :: r) =
      (utf8Decode rest).map (fun r => Char.ofNat n :: r)
    rw [utf8DecodeF_fuel t.length rest (by omega)]
    rfl

theorem utf8_roundtrip (s : List Char) : utf8Decode (utf8Encode s) = some s := by
  induction s with
  | nil => rfl
  | cons c t ih =>
    have hone := utf8DecodeOne_encodeChar c (utf8Encode t)
    have hcons : utf8Encode (c :: t) = utf8EncodeChar c ++ utf8Encode t := by
      simp [utf8Encode]
    rw [hcons]
    rcases henc : utf8EncodeChar c with _ | ⟨b, bs⟩
    · exact absurd henc (utf8EncodeChar_ne_nil c)
    · rw [henc] at hone
      rw [List.cons_append] at hone ⊢
      rw [utf8Decode_cons, hone]
      simp [ih, Char.ofNat_toNat]

/-! ### Signature format converter lemmas -/

theorem stripLZ_length_le : ∀ l : List Nat, (stripLZ l).length ≤ l.length
  | [] => le_refl _
  | [_] => le_refl _
  | a :: b :: t => by
    unfold stripLZ
    split_ifs
    · exact le_trans (stripLZ_length_le (b :: t)) (by simp)
    · exact le_refl _

theorem stripLZ_restore : ∀ l : List Nat,
    List.replicate (l.length - (stripLZ l).length) 0 ++ stripLZ l = l
  | [] => rfl
  | [a] => by simp [stripLZ]
  | a :: b :: t => by
    by_cases hab : a = 0 ∧ b % 256 / 128 = 0
    · have hs : stripLZ (a :: b :: t) = stripLZ (b :: t) := by
        simp only [stripLZ]
        rw [if_pos hab]
      have ih := stripLZ_restore (b :: t)
      have hle := stripLZ_length_le (b :: t)
      rw [hs]
      have hk : (a :: b :: t).length - (stripLZ (b :: t)).length =
          ((b :: t).length - (stripLZ (b :: t)).length) + 1 := by
        simp only [List.length_cons] at hle ⊢
        omega
      rw [hk, List.replicate_succ, List.cons_append, ih, hab.1]
    · have hs : stripLZ (a :: b :: t) = a :: b :: t := by
        simp only [stripLZ]
        rw [if_neg hab]
      rw [hs]
      simp

theorem padTo32_eq (l : List Nat) (h : l.length ≤ 32) :
    padTo32 l = List.replicate (32 - l.length) 0 ++ l := by
  unfold padTo32
  rcases Nat.lt_or_ge l.length 32 with hl | hl
  · rw [if_pos hl]
  · have h32 : l.length = 32 := by omega
    rw [if_neg (by omega), h32]
    simp

/-- Recovering a 32-byte integer half from its `rawToDer` encoding. -/
theorem half_roundtrip (r0 : List Nat) (h32 : r0.length = 32) :
    padTo32 (stripOneLeadingZero (stripLZ
      (if (r0.getD 0 0) % 256 / 128 ≠ 0 then prependZero r0 else r0))) =
      r0 := by
  rcases r0 with _ | ⟨h0, t0⟩
  · simp at h32
  by_cases hb : h0 % 256 / 128 ≠ 0
  · rw [if_pos (by simpa using hb)]
    have hpz : prependZero (h0 :: t0) = 0 :: h0 :: t0 := by
      unfold prependZero
      have : 32 - (h0 :: t0).length = 0 := by omega
      rw [this]
      simp
    rw [hpz]
    have hstrip : stripLZ (0 :: h0 :: t0) = 0 :: h0 :: t0 := by
      simp only [stripLZ]
      rw [if_neg (by omega)]
    rw [hstrip]
    have hlen33 : (0 :: h0 :: t0).length = 33 := by
      simp only [List.length_cons] at h32 ⊢
      omega
    have hone : stripOneLeadingZero (0 :: h0 :: t0) = h0 :: t0 := by
      unfold stripOneLeadingZero
      rw [if_pos ⟨by rw [hlen33]; omega, rfl⟩]
      rfl
    rw [hone, padTo32_eq _ (by omega)]
    have : 32 - (h0 :: t0).length = 0 := by omega
    rw [this]
    simp
  · rw [if_neg (by simpa using hb)]
    have hle := stripLZ_length_le (h0 :: t0)
    have hone : stripOneLeadingZero (stripLZ (h0 :: t0)) =
        stripLZ (h0 :: t0) := by
      unfold stripOneLeadingZero
      rw [if_neg]
      intro hcon
      omega
    rw [hone, padTo32_eq _ (by omega)]
    have hres := stripLZ_restore (h0 :: t0)
    rw [← h32] at *
    have : (h0 :: t0).length - (stripLZ (h0 :: t0)).length =
        (h0 :: t0).length - (stripLZ (h0 :: t0)).length := rfl
    exact hres

theorem jsGet_cons4 (c0 c1 c2 c3 : Nat) (tl : List Nat) (k : Nat) :
    jsGet (c0 :: c1 :: c2 :: c3 :: tl) (4 + k) = jsGet tl k := by
  show (c0 :: c1 :: c2 :: c3 :: tl).get? (4 + k) = tl.get? k
  have h : 4 + k = k + 4 := by omega
  rw [h]
  rfl

theorem jsSlice_cons4 (c0 c1 c2 c3 : Nat) (tl : List Nat) (k : Nat) :
    jsSlice (c0 :: c1 :: c2 :: c3 :: tl) 4 (4 + k) = tl.take k := by
  show ((c0 :: c1 :: c2 :: c3 :: tl).take (4 + k)).drop 4 = tl.take k
  have h : 4 + k = k + 4 := by omega
  rw [h]
  rfl

/-- Parsing the DER emitted by `rawToDer` recovers the two stripped
integer fields. -/
theorem derParseInts_assemble (r s : List Nat) :
    derParseInts (0x30 :: (2 + r.length + 2 + s.length) :: 0x02 ::
      r.length :: (r ++ 0x02 :: s.length :: s)) = some (r, s) := by
  unfold derParseInts
  have hg2 : jsGet (0x30 :: (2 + r.length + 2 + s.length) :: 0x02 ::
      r.length :: (r ++ 0x02 :: s.length :: s)) 2 = some 0x02 := rfl
  have hg3 : jsGet (0x30 :: (2 + r.length + 2 + s.length) :: 0x02 ::
      r.length :: (r ++ 0x02 :: s.length :: s)) 3 = some r.length := rfl
  have hgr : jsGet (0x30 :: (2 + r.length + 2 + s.length) :: 0x02 ::
      r.length :: (r ++ 0x02 :: s.length :: s)) (4 + r.length) =
      some 0x02 := by
    rw [jsGet_cons4]
    show (r ++ 0x02 :: s.length :: s).get? r.length = some 0x02
    rw [List.get?_append_right (le_refl _), Nat.sub_self]
    rfl
  have hgs : jsGet (0x30 :: (2 + r.length + 2 + s.length) :: 0x02 ::
      r.length :: (r ++ 0x02 :: s.length :: s)) (4 + r.length + 1) =
      some s.length := by
    have h1 : 4 + r.length + 1 = 4 + (r.length + 1) := by omega
    rw [h1, jsGet_cons4]
    show (r ++ 0x02 :: s.length :: s).get? (r.length + 1) = some s.length
    rw [List.get?_append_right (by omega), Nat.add_sub_cancel_left]
    rfl
  have hr : jsSlice (0x30 :: (2 + r.length + 2 + s.length) :: 0x02 ::
      r.length :: (r ++ 0x02 :: s.length :: s)) 4 (4 + r.length) = r := by
    rw [jsSlice_cons4]
    exact List.take_left r _
  have hs : jsSlice (0x30 :: (2 + r.length + 2 + s.length) :: 0x02 ::
      r.length :: (r ++ 0x02 :: s.length :: s)) (4 + r.length + 2)
      (4 + r.length + 2 + s.length) = s := by
    show ((0x30 :: (2 + r.length + 2 + s.length) :: 0x02 ::
      r.length :: (r ++ 0x02 :: s.length :: s)).take
        (4 + r.length + 2 + s.length)).drop (4 + r.length + 2) = s
    have h1 : 4 + r.length + 2 + s.length = (r.length + 2 + s.length) + 4 := by
      omega
    have h2 : 4 + r.length + 2 = (r.length + 2) + 4 := by omega
    rw [h1, h2]
    show ((r ++ 0x02 :: s.length :: s).take (r.length + 2 + s.length)).drop
      (r.length + 2) = s
    have h3 : r ++ 0x02 :: s.length :: s = (r ++ [0x02, s.length]) ++ s := by
      simp
    have h4 : r.length + 2 + s.length = (r ++ [0x02, s.length]).length +
        s.length := by simp
    have h5 : r.length + 2 = (r ++ [0x02, s.length]).length := by simp
    rw [h3, h4, h5, List.take_append, List.take_length, List.drop_left]
  simp [hg2, hg3, hgr, hgs, hr, hs]

/-! ### String-level round trip and token shape lemmas -/

theorem b64urlStr_roundtrip (s : List Char) :
    base64UrlDecodeStr (base64UrlEncodeStr s) = some s := by
  have h := b64_bytes_roundtrip (utf8Encode s) (utf8Encode_lt s)
  unfold base64UrlToUint8Array at h
  unfold base64UrlDecodeStr base64UrlEncodeStr
  rw [h]
  exact utf8_roundtrip s

theorem base64UrlEncodeStr_chars (s : List Char) :
    ∀ c ∈ base64UrlEncodeStr s, jsWS c = false ∧ c ≠ '.' :=
  uint8ArrayToBase64Url_chars (utf8Encode s) (utf8Encode_lt s)

theorem token_split (hB pB sB : List Char)
    (hh : ∀ c ∈ hB, jsWS c = false ∧ c ≠ '.')
    (hp : ∀ c ∈ pB, jsWS c = false ∧ c ≠ '.')
    (hs : ∀ c ∈ sB, jsWS c = false ∧ c ≠ '.') :
    splitDot (jsTrim (hB ++ '.' :: pB ++ '.' :: sB)) = [hB, pB, sB] := by
  have hshape : hB ++ '.' :: pB ++ '.' :: sB =
      hB ++ '.' :: (pB ++ '.' :: sB) := by
    simp
  have hws : ∀ c ∈ hB ++ '.' :: pB ++ '.' :: sB, jsWS c = false := by
    intro c hc
    rw [hshape] at hc
    rcases List.mem_append.1 hc with hc | hc
    · exact (hh c hc).1
    · rcases List.mem_cons.1 hc with rfl | hc
      · decide
      · rcases List.mem_append.1 hc with hc | hc
        · exact (hp c hc).1
        · rcases List.mem_cons.1 hc with rfl | hc
          · decide
          · exact (hs c hc).1
  rw [jsTrim_eq_self _ hws, hshape,
    splitDot_append _ _ (fun hm => absurd rfl (hh '.' hm).2),
    splitDot_append _ _ (fun hm => absurd rfl (hp '.' hm).2),
    splitDot_no_dot _ (fun hm => absurd rfl (hs '.' hm).2)]

/-! ### Invalid-character lemmas for forgiving base64 -/

theorem idxFrom_eq_none (l : List Char) (c : Char) (h : c ∉ l) :
    ∀ n, idxFrom l c n = none := by
  induction l with
  | nil => intro n; rfl
  | cons a t ih =>
    intro n
    have ha : a ≠ c := fun he => h (he ▸ List.mem_cons_self a t)
    simp only [idxFrom, if_neg ha]
    exact ih (fun hm => h (List.mem_cons_of_mem a hm)) (n + 1)

theorem b64Index_none (c : Char) (h : c ∉ b64Chars) : b64Index c = none :=
  idxFrom_eq_none b64Chars c h 0

theorem sextetsOf_none (l : List Char) (c : Char) (hc : c ∈ l)
    (hi : b64Index c = none) : sextetsOf l = none := by
  induction l with
  | nil => cases hc
  | cons a t ih =>
    rcases List.mem_cons.1 hc with rfl | hc
    · simp only [sextetsOf, hi]
    · simp only [sextetsOf, ih hc]
      cases b64Index a <;> rfl

theorem mem_dropTrailingEq (l : List Char) (c : Char) (hc : c ∈ l)
    (hne : c ≠ '=') : c ∈ dropTrailingEq l := by
  unfold dropTrailingEq
  split_ifs with h1 h2
  · have hl1 : l.dropLast ++ ['='] = l :=
      List.dropLast_append_getLast? '=' h1
    have hc1 : c ∈ l.dropLast := by
      rw [← hl1] at hc
      rcases List.mem_append.1 hc with hc | hc
      · exact hc
      · simp at hc
        exact absurd hc hne
    have hl2 : l.dropLast.dropLast ++ ['='] = l.dropLast :=
      List.dropLast_append_getLast? '=' h2
    rw [← hl2] at hc1
    rcases List.mem_append.1 hc1 with hc1 | hc1
    · exact hc1
    · simp at hc1
      exact absurd hc1 hne
  · have hl1 : l.dropLast ++ ['='] = l :=
      List.dropLast_append_getLast? '=' h1
    rw [← hl1] at hc
    rcases List.mem_append.1 hc with hc | hc
    · exact hc
    · simp at hc
      exact absurd hc hne
  · exact hc

theorem padTo32_of_ge (l : List Nat) (h : 32 ≤ l.length) : padTo32 l = l := by
  unfold padTo32
  rw [if_neg (by omega)]

theorem jsSlice_take64_left (raw : List Nat) :
    jsSlice raw 0 32 = jsSlice (raw.take 64) 0 32 := by
  unfold jsSlice
  rw [List.take_take]
  norm_num

theorem jsSlice_take64_right (raw : List Nat) :
    jsSlice raw 32 64 = jsSlice (raw.take 64) 32 64 := by
  unfold jsSlice
  rw [List.take_take]
  norm_num

end Lemmas

section Claims

/-- C1 (amended): for every 64-byte raw ECDSA signature `x` whose DER
encoding `rawToDer x` is not itself 64 bytes long, the converter directions
compose to the identity: `derToRaw (rawToDer x) = some x`. (The claim as
frozen also covered inputs whose DER encoding is exactly 64 bytes; those are
passed through unchanged by `derToRaw` and refute it, see the
counterexample.) -/
theorem claim1_der_raw_roundtrip (x : List Nat) (hlen : x.length = 64)
    (h64 : (rawToDer x).length ≠ 64) :
    derToRaw (rawToDer x) = some x := by
  have hr0 : jsSlice x 0 32 = x.take 32 := by
    unfold jsSlice
    rw [List.drop_zero]
  have hs0 : jsSlice x 32 64 = x.drop 32 := by
    unfold jsSlice
    rw [show x.take 64 = x from by rw [← hlen, List.take_length]]
  have hr0len : (x.take 32).length = 32 := by
    simp [List.length_take, hlen]
  have hs0len : (x.drop 32).length = 32 := by
    rw [List.length_drop, hlen]
  have hshape : rawToDer x =
      0x30 :: (2 + (stripLZ (if ((x.take 32).getD 0 0) % 256 / 128 ≠ 0 then
          prependZero (x.take 32) else x.take 32)).length + 2 +
        (stripLZ (if ((x.drop 32).getD 0 0) % 256 / 128 ≠ 0 then
          prependZero (x.drop 32) else x.drop 32)).length) :: 0x02 ::
      (stripLZ (if ((x.take 32).getD 0 0) % 256 / 128 ≠ 0 then
          prependZero (x.take 32) else x.take 32)).length ::
      (stripLZ (if ((x.take 32).getD 0 0) % 256 / 128 ≠ 0 then
          prependZero (x.take 32) else x.take 32) ++ 0x02 ::
        (stripLZ (if ((x.drop 32).getD 0 0) % 256 / 128 ≠ 0 then
          prependZero (x.drop 32) else x.drop 32)).length ::
        stripLZ (if ((x.drop 32).getD 0 0) % 256 / 128 ≠ 0 then
          prependZero (x.drop 32) else x.drop 32)) := by
    unfold rawToDer
    rw [hr0, hs0]
  have hhalfR := half_roundtrip (x.take 32) hr0len
  have hhalfS := half_roundtrip (x.drop 32) hs0len
  unfold derToRaw
  rw [if_neg h64, hshape, derParseInts_assemble]
  simp only [hhalfR, hhalfS]
  rw [if_neg (by omega), if_neg (by omega)]
  unfold writeAt
  simp only [List.take_zero, List.drop_zero, List.nil_append, Nat.zero_add]
  have hdrop1 : (List.replicate 64 (0 : Nat)).drop (x.take 32).length =
      List.replicate 32 0 := by
    rw [hr0len]
    rfl
  rw [hdrop1]
  have htake : (x.take 32 ++ List.replicate 32 0).take 32 = x.take 32 :=
    List.take_left' hr0len
  have hdrop2 : (x.take 32 ++ List.replicate 32 0).drop
      (32 + (x.drop 32).length) = [] := by
    apply List.drop_eq_nil_of_le
    simp [hr0len, hs0len]
  rw [htake, hdrop2, List.append_nil, List.take_append_drop]

/-- C1 counterexample: a 64-byte raw signature whose stripped DER encoding
happens to be exactly 64 bytes long; `derToRaw` passes that DER blob through
unchanged, so the round trip does not return the original input. -/
theorem claim1_counterexample :
    (1 :: List.replicate 31 0 ++ 0 :: 0 :: 0 :: 0 :: 0 :: 0 :: 1 ::
      List.replicate 25 (0 : Nat)).length = 64 ∧
    derToRaw (rawToDer (1 :: List.replicate 31 0 ++ 0 :: 0 :: 0 :: 0 :: 0 ::
      0 :: 1 :: List.replicate 25 (0 : Nat))) ≠
      some (1 :: List.replicate 31 0 ++ 0 :: 0 :: 0 :: 0 :: 0 :: 0 :: 1 ::
        List.replicate 25 (0 : Nat)) := by
  constructor
  · decide
  · decide

/-- C1 witness: the all-zero 64-byte signature round-trips. -/
theorem claim1_witness :
    derToRaw (rawToDer (List.replicate 64 0)) =
      some (List.replicate 64 0) :=
  claim1_der_raw_roundtrip (List.replicate 64 0) (by decide) (by decide)

/-- C4 (amended): for non-64-byte inputs, `derToRaw` raises whenever the
INTEGER tag byte at offset 2, or the tag byte following the R field, is not
`0x02`, whenever the S field still exceeds 32 bytes after zero-stripping,
and whenever the R field exceeds 64 bytes after zero-stripping (the write
into the 64-byte output buffer throws a `RangeError`). (The claim as frozen
also required a failure for a bad outer SEQUENCE tag — never checked — and
for *any* INTEGER field over 32 bytes after stripping: an R field of
stripped length 33 to 64 bytes is accepted silently, its excess bytes
overwritten by the S write; both refutations are in the counterexample.) -/
theorem claim4_derToRaw_errors :
    (∀ der : List Nat, der.length ≠ 64 → jsGet der 2 ≠ some 0x02 →
      derToRaw der = none) ∧
    (∀ der rLen, der.length ≠ 64 → jsGet der 3 = some rLen →
      jsGet der (4 + rLen) ≠ some 0x02 → derToRaw der = none) ∧
    (∀ der r0 s0, der.length ≠ 64 → derParseInts der = some (r0, s0) →
      32 < (stripOneLeadingZero s0).length → derToRaw der = none) ∧
    (∀ der r0 s0, der.length ≠ 64 → derParseInts der = some (r0, s0) →
      64 < (stripOneLeadingZero r0).length → derToRaw der = none) := by
  refine ⟨?_, ?_, ?_, ?_⟩
  · intro der hlen htag
    unfold derToRaw derParseInts
    rw [if_neg hlen, if_pos htag]
  · intro der rLen hlen h3 htag
    unfold derToRaw derParseInts
    rw [if_neg hlen]
    by_cases h2 : jsGet der 2 ≠ some 0x02
    · rw [if_pos h2]
    · rw [if_neg h2, h3]
      simp only [if_pos htag]
  · intro der r0 s0 hlen hparse hs
    unfold derToRaw
    rw [if_neg hlen, hparse]
    have hpad : padTo32 (stripOneLeadingZero s0) =
        stripOneLeadingZero s0 := padTo32_of_ge _ (by omega)
    simp only [hpad]
    by_cases hr : 64 < (padTo32 (stripOneLeadingZero r0)).length
    · rw [if_pos hr]
    · rw [if_neg hr, if_pos hs]
  · intro der r0 s0 hlen hparse hr
    unfold derToRaw
    rw [if_neg hlen, hparse]
    have hpad : padTo32 (stripOneLeadingZero r0) =
        stripOneLeadingZero r0 := padTo32_of_ge _ (by omega)
    simp only [hpad]
    rw [if_pos hr]

/-- C4 counterexample: first, a DER blob whose outer tag is `0x00` instead
of `0x30` for which `derToRaw` silently returns a 64-byte result; second, a
DER blob whose R field is 33 bytes long after stripping — over the 32-byte
bound the claim requires to fail — also silently accepted, R's last byte
overwritten by the S write. -/
theorem claim4_counterexample :
    (jsGet [0, 0, 2, 1, 5, 2, 1, 7] 0 ≠ some 0x30 ∧
     derToRaw [0, 0, 2, 1, 5, 2, 1, 7] =
       some (List.replicate 31 0 ++ 5 :: List.replicate 31 0 ++ [7])) ∧
    (32 < (stripOneLeadingZero (1 :: List.replicate 32 5)).length ∧
     derToRaw (0x30 :: 40 :: 2 :: 33 :: (1 :: List.replicate 32 5) ++
         [2, 1, 7]) =
       some ((1 :: List.replicate 31 5) ++ List.replicate 31 0 ++ [7])) := by
  refine ⟨⟨?_, ?_⟩, ?_, ?_⟩
  · decide
  · decide
  · decide
  · decide

/-- C4 witness: the four error cases at concrete corrupt inputs. -/
theorem claim4_witness :
    derToRaw [0, 0, 3, 1, 5, 2, 1, 7] = none ∧
    derToRaw [0, 0, 2, 1, 5, 3, 1, 7] = none ∧
    derToRaw (0x30 :: 39 :: 2 :: 1 :: 5 :: 2 :: 34 ::
      List.replicate 34 1) = none ∧
    derToRaw (0x30 :: 75 :: 2 :: 70 :: List.replicate 70 1 ++ [2, 1, 7]) =
      none :=
  ⟨claim4_derToRaw_errors.1 [0, 0, 3, 1, 5, 2, 1, 7] (by decide) (by decide),
   claim4_derToRaw_errors.2.1 [0, 0, 2, 1, 5, 3, 1, 7] 1 (by decide)
     (by decide) (by decide),
   claim4_derToRaw_errors.2.2.1 (0x30 :: 39 :: 2 :: 1 :: 5 :: 2 :: 34 ::
       List.replicate 34 1) [5] (List.replicate 34 1) (by decide) (by decide)
     (by decide),
   claim4_derToRaw_errors.2.2.2 (0x30 :: 75 :: 2 :: 70 ::
       List.replicate 70 1 ++ [2, 1, 7]) (List.replicate 70 1) [7]
     (by decide) (by decide) (by decide)⟩

/-- C5 (amended): `rawToDer` performs no input length validation and never
raises: for every input, of any length, it ignores bytes past index 64 and
returns a well-formed `SEQUENCE { INTEGER, INTEGER }` encoding built from
`r = slice(0, 32)` and `s = slice(32, 64)`. (The claim as frozen said it
fails on inputs that are not exactly 64 bytes; it does not — see the
counterexample.) -/
theorem claim5_rawToDer_total (raw : List Nat) :
    rawToDer raw = rawToDer (raw.take 64) ∧
    ∃ r s, rawToDer raw =
      0x30 :: (2 + r.length + 2 + s.length) :: 0x02 :: r.length ::
        (r ++ 0x02 :: s.length :: s) := by
  constructor
  · unfold rawToDer
    rw [jsSlice_take64_left, jsSlice_take64_right]
  · exact ⟨_, _, rfl⟩

/-- C5 counterexample: the empty input is not rejected; `rawToDer` returns
the DER encoding of two empty INTEGER fields. -/
theorem claim5_counterexample :
    ([] : List Nat).length ≠ 64 ∧
    rawToDer [] = [0x30, 4, 0x02, 0, 0x02, 0] := by
  constructor
  · decide
  · decide

/-- C3 (amended): `decodeJWT` returns `isValid = true` exactly when the
trimmed token splits on the dot into exactly 3 segments and segments 0 and 1
each base64url-decode to UTF-8 text that parses as *some* JSON value — not
necessarily a JSON object (see the counterexample: a bare number is
accepted); `isValid` makes no claim about the signature segment. -/
theorem claim3_isValid_iff (token : List Char) :
    (decodeJWT token).isValid = true ↔
      ((splitDot (jsTrim token)).length = 3 ∧
       (∃ h, base64UrlDecodeStr ((splitDot (jsTrim token)).getD 0 []) =
          some h ∧ (jsonParse h).isSome = true) ∧
       (∃ pl, base64UrlDecodeStr ((splitDot (jsTrim token)).getD 1 []) =
          some pl ∧ (jsonParse pl).isSome = true)) := by
  unfold decodeJWT
  by_cases h0 : token = [] ∨ jsTrim token = []
  · rw [if_pos h0]
    have htrim : jsTrim token = [] := by
      rcases h0 with rfl | h
      · rfl
      · exact h
    rw [htrim]
    simp [splitDot]
  · rw [if_neg h0]
    by_cases h3 : (splitDot (jsTrim token)).length ≠ 3
    · rw [if_pos h3]
      simp [h3]
    · rw [if_neg h3]
      push_neg at h3
      unfold decodeJWT3
      cases hh : base64UrlDecodeStr ((splitDot (jsTrim token)).getD 0 []) with
      | none => simp [hh]
      | some hstr =>
        cases hj : jsonParse hstr with
        | none =>
          simp only [hj]
          simp [hh, hj, h3]
        | some hv =>
          cases hp : base64UrlDecodeStr
              ((splitDot (jsTrim token)).getD 1 []) with
          | none => simp [hh, hj, hp, h3]
          | some pstr =>
            cases hpj : jsonParse pstr with
            | none => simp [hh, hj, hp, hpj, h3]
            | some pv => simp [hh, hj, hp, hpj, h3]

/-- C3 counterexample: the token `NDI.NDI.s`, whose header and payload
segments decode to the JSON text `42`, is reported structurally valid, and
its `header` field is the parsed number — not a JSON object. -/
theorem claim3_counterexample :
    (decodeJWT ("NDI.NDI.s".toList)).isValid = true ∧
    (decodeJWT ("NDI.NDI.s".toList)).header =
      some (JsonValue.num ['4', '2']) ∧
    ((decodeJWT ("NDI.NDI.s".toList)).header.map JsonValue.isObj) =
      some false :=
  ⟨rfl, rfl, rfl⟩

/-- C6 (amended): `base64UrlToUint8Array` fails for every input containing
a character outside the *extended* set: base64url alphabet plus `+`, `/`,
`=` and ASCII whitespace. (The claim as frozen required failure already for
`+`, `/` and `=`; those are in fact accepted — `+`/`/` survive the
translation step and are valid standard-base64 characters, and trailing `=`
is removed by the forgiving decode. See the counterexample.) -/
theorem claim6_invalid_char (s : List Char) (c : Char) (hc : c ∈ s)
    (h1 : c ∉ b64Chars) (h2 : c ≠ '-') (h3 : c ≠ '_') (h4 : c ≠ '=')
    (h5 : b64AsciiWS c = false) :
    base64UrlToUint8Array s = none := by
  have hcu : urlUnrep c = c := by
    unfold urlUnrep
    rw [if_neg h2, if_neg h3]
  have hmemmap : c ∈ s.map urlUnrep := by
    have := List.mem_map_of_mem urlUnrep hc
    rwa [hcu] at this
  have hmemt : c ∈ base64UrlToBase64 s := by
    show c ∈ (if (s.map urlUnrep).length % 4 = 0 then s.map urlUnrep
      else s.map urlUnrep ++
        List.replicate (4 - (s.map urlUnrep).length % 4) '=')
    split_ifs
    · exact hmemmap
    · exact List.mem_append_left _ hmemmap
  have hd1 : c ∈ (base64UrlToBase64 s).filter (fun d => ¬ b64AsciiWS d) :=
    List.mem_filter.2 ⟨hmemt, by simp [h5]⟩
  have hprep : c ∈ atobPrep (base64UrlToBase64 s) := by
    unfold atobPrep
    split_ifs
    · exact mem_dropTrailingEq _ _ hd1 h4
    · exact hd1
  unfold base64UrlToUint8Array atobDecode
  by_cases hl : (atobPrep (base64UrlToBase64 s)).length % 4 = 1
  · rw [if_pos hl]
  · rw [if_neg hl, sextetsOf_none _ _ hprep (b64Index_none c h1)]

/-- C6 counterexample: the input `ab+` contains `+`, which is outside the
base64url alphabet, yet it decodes successfully (as `ab-` would). -/
theorem claim6_counterexample :
    '+' ∈ ['a', 'b', '+'] ∧
    base64UrlToUint8Array ['a', 'b', '+'] = some [105, 191] := by
  constructor
  · decide
  · decide

/-- C6 witness: a character outside the extended set is rejected. -/
theorem claim6_witness : base64UrlToUint8Array ['a', '~'] = none :=
  claim6_invalid_char ['a', '~'] '~' (by decide) (by decide) (by decide)
    (by decide) (by decide) (by decide)

/-- C7: decoding the base64url encoding of any byte sequence returns the
bytes exactly, the padding-restoration step appending
`(4 - len % 4) % 4` equal signs. -/
theorem claim7_base64url_roundtrip (B : List Nat) (h : ∀ b ∈ B, b < 256) :
    base64UrlToUint8Array (uint8ArrayToBase64Url B) = some B :=
  b64_bytes_roundtrip B h

/-- C7 witness. -/
theorem claim7_witness :
    base64UrlToUint8Array (uint8ArrayToBase64Url [0, 1, 127, 128, 255]) =
      some [0, 1, 127, 128, 255] :=
  claim7_base64url_roundtrip [0, 1, 127, 128, 255] (by decide)

/-- C8: `verifyJWTSignature` is *not* total: for the token whose header
segment decodes to the JSON value `null` (`bnVsbA` is base64url of `null`),
the unguarded `header.alg` property read throws a `TypeError` outside every
`try`, so the returned promise rejects — for every cryptographic back-end.
This contradicts the claim; the claim matches the evident intent
(everything else is caught), so the code is at fault. -/
theorem claim8_verify_rejects (p : CryptoPrims) :
    verifyJWTSignature p ("bnVsbA.e30.x".toList) ("k".toList) = none := rfl

/-- C9: a whitespace-only token with a non-empty key passes the truthiness
check (a non-empty string is truthy) and fails at the splitting step with
`Invalid JWT structure`, not the missing-input error. -/
theorem claim9_whitespace_token (p : CryptoPrims) (token key : List Char)
    (hne : token ≠ []) (hws : ∀ c ∈ token, jsWS c = true) (hkey : key ≠ []) :
    verifyJWTSignature p token key =
      some ⟨false, some "Invalid JWT structure", none⟩ := by
  unfold verifyJWTSignature
  rw [if_neg (by simp [hne, hkey]),
    if_pos (by rw [jsTrim_eq_nil token hws]; simp [splitDot])]

/-- C9 witness: a single-space token and the key `k`. -/
theorem claim9_witness :
    verifyJWTSignature wPrims [' '] ['k'] =
      some ⟨false, some "Invalid JWT structure", none⟩ :=
  claim9_whitespace_token wPrims [' '] ['k'] (by decide) (by decide)
    (by decide)

/-- C10: in `decodeJWT`, a successfully parsed header survives a later
payload failure: the result keeps the parsed header object, has a `null`
payload, `isValid = false`, and an error beginning `Invalid payload:`. -/
theorem claim10_header_survives (token s0 s1 s2 : List Char) (hv : JsonValue)
    (hsplit : splitDot (jsTrim token) = [s0, s1, s2])
    (hh : ∃ hstr, base64UrlDecodeStr s0 = some hstr ∧
      jsonParse hstr = some hv)
    (hp : base64UrlDecodeStr s1 = none ∨
      (∃ pstr, base64UrlDecodeStr s1 = some pstr ∧ jsonParse pstr = none)) :
    (decodeJWT token).header = some hv ∧ (decodeJWT token).payload = none ∧
    (decodeJWT token).isValid = false ∧
    ∃ d, (decodeJWT token).error = some ("Invalid payload: " ++ d) := by
  have htrim : jsTrim token ≠ [] := by
    intro he
    rw [he] at hsplit
    simp [splitDot] at hsplit
  have htok : ¬ (token = [] ∨ jsTrim token = []) := by
    rintro (rfl | he)
    · exact htrim rfl
    · exact htrim he
  obtain ⟨hstr, hb, hj⟩ := hh
  unfold decodeJWT
  rw [if_neg htok, if_neg (by rw [hsplit]; simp), hsplit]
  show (decodeJWT3 s0 s1 s2).header = some hv ∧
    (decodeJWT3 s0 s1 s2).payload = none ∧
    (decodeJWT3 s0 s1 s2).isValid = false ∧
    ∃ d, (decodeJWT3 s0 s1 s2).error = some ("Invalid payload: " ++ d)
  unfold decodeJWT3
  rw [hb]
  rcases hp with hp | ⟨pstr, hp, hpj⟩
  · simp only [hj, hp]
    exact ⟨trivial, trivial, trivial, b64ErrMsg, rfl⟩
  · simp only [hj, hp, hpj]
    exact ⟨trivial, trivial, trivial, jsonErrMsg, rfl⟩

/-- C10 witness: header `{}` with an undecodable payload segment. -/
theorem claim10_witness :
    (decodeJWT ("e30.!.x".toList)).header = some (JsonValue.obj []) ∧
    (decodeJWT ("e30.!.x".toList)).payload = none ∧
    (decodeJWT ("e30.!.x".toList)).isValid = false :=
  have h := claim10_header_survives ("e30.!.x".toList) ("e30".toList)
    ("!".toList) ("x".toList) (JsonValue.obj []) rfl
    ⟨['\x7b', '\x7d'], rfl, rfl⟩ (Or.inl rfl)
  ⟨h.1, h.2.1, h.2.2.1⟩

theorem verify_token_of (p : CryptoPrims) (verKey hB64 pB64 sB64 : List Char)
    (hvkey : verKey ≠ [])
    (hhc : ∀ c ∈ hB64, jsWS c = false ∧ c ≠ '.')
    (hpc : ∀ c ∈ pB64, jsWS c = false ∧ c ≠ '.')
    (hsc : ∀ c ∈ sB64, jsWS c = false ∧ c ≠ '.') :
    verifyJWTSignature p (hB64 ++ '.' :: pB64 ++ '.' :: sB64) verKey =
      verifyParts p verKey hB64 pB64 sB64 := by
  have htokne : hB64 ++ '.' :: pB64 ++ '.' :: sB64 ≠ [] := by simp
  have hsplit := token_split hB64 pB64 sB64 hhc hpc hsc
  unfold verifyJWTSignature
  rw [if_neg (not_or.2 ⟨htokne, hvkey⟩), hsplit]
  rw [if_neg (by simp)]
  rfl

theorem verifyParts_supported (p : CryptoPrims)
    (verKey hB64 pB64 sB64 : List Char)
    (header : List (List Char × JsonValue)) (alg : List Char)
    (hhdr : (base64UrlDecodeStr hB64).bind jsonParse =
      some (JsonValue.obj header))
    (halg : jsLookup header ['a', 'l', 'g'] = some (JsonValue.str alg))
    (hsupV : isSupportedAlgV (some (JsonValue.str alg)) = true) :
    verifyParts p verKey hB64 pB64 sB64 =
      some (verifyDispatch p verKey hB64 pB64 sB64 (String.mk alg)) := by
  unfold verifyParts
  rw [hhdr]
  simp only [jsProp, halg]
  rw [if_neg (by simp [hsupV])]
  rfl

/-- C2: for every supported algorithm (HS256, RS256, ES256), every header
object carrying that `alg`, every payload, and every corresponding key pair
(the same secret for HS256, signature-accepting verification key for
RS256/ES256, with signatures that survive byte round-tripping), a token
produced without error by `encodeJWT` is verified by `verifyJWTSignature`:
`verified = true` with no error. In particular the ES256 path mirrors the
encode side: the encoder emits the back-end signature bytes unconverted and
the verifier feeds the decoded bytes to the back-end unconverted. -/
theorem claim2_encode_verify
    (p : CryptoPrims) (stringify : JsonValue → List Char)
    (header : List (List Char × JsonValue)) (payload : JsonValue)
    (signKey verKey : List Char) (alg : List Char)
    (halg : jsLookup header ['a', 'l', 'g'] = some (JsonValue.str alg))
    (hsup : alg = "HS256".toList ∨ alg = "RS256".toList ∨
      alg = "ES256".toList)
    (hkey : signKey ≠ []) (hvkey : verKey ≠ [])
    (hsym : alg = "HS256".toList → verKey = signKey)
    (hparse : jsonParse (stringify (JsonValue.obj header)) =
      some (JsonValue.obj header))
    (hhmac : ∀ k m, ∀ b ∈ p.hmacSha256 k m, b < 256)
    (hrsaB : ∀ m sig, p.rsaSign signKey m = some sig → ∀ b ∈ sig, b < 256)
    (hecB : ∀ m sig, p.ecdsaSign signKey m = some sig → ∀ b ∈ sig, b < 256)
    (hrsa : ∀ m sig, p.rsaSign signKey m = some sig →
      p.rsaVerify verKey sig m = some true)
    (hec : ∀ m sig, p.ecdsaSign signKey m = some sig →
      p.ecdsaVerify verKey sig m = some true)
    (tok : List Char)
    (henc : encodeJWT p stringify header payload signKey = ⟨tok, none⟩) :
    verifyJWTSignature p tok verKey =
      some ⟨true, none, some (String.mk alg)⟩ := by
  have hne : alg ≠ [] := by
    rcases hsup with rfl | rfl | rfl <;> decide
  have hsupV : isSupportedAlgV (some (JsonValue.str alg)) = true := by
    rcases hsup with rfl | rfl | rfl <;> decide
  unfold encodeJWT at henc
  rw [halg] at henc
  rw [if_neg (by simp [jsTruthy, hne]), if_neg (by simp [hsupV]),
    if_neg hkey] at henc
  simp only [algNameOf] at henc
  set hB64 := base64UrlEncodeStr (stringify (JsonValue.obj header)) with hhB
  set pB64 := base64UrlEncodeStr (stringify payload) with hpB
  have hhc : ∀ c ∈ hB64, jsWS c = false ∧ c ≠ '.' := by
    rw [hhB]
    exact base64UrlEncodeStr_chars _
  have hpc : ∀ c ∈ pB64, jsWS c = false ∧ c ≠ '.' := by
    rw [hpB]
    exact base64UrlEncodeStr_chars _
  have hhdr : (base64UrlDecodeStr hB64).bind jsonParse =
      some (JsonValue.obj header) := by
    rw [hhB, b64urlStr_roundtrip]
    exact hparse
  rcases hsup with rfl | rfl | rfl
  · -- HS256
    simp only [encodeDispatch] at henc
    rw [if_pos (by decide)] at henc
    rw [EncodeResult.mk.injEq] at henc
    obtain ⟨htok, -⟩ := henc
    subst htok
    have hsigB : ∀ b ∈ p.hmacSha256 (utf8Encode signKey)
        (utf8Encode (hB64 ++ '.' :: pB64)), b < 256 := hhmac _ _
    have hsc := uint8ArrayToBase64Url_chars _ hsigB
    rw [verify_token_of p verKey hB64 pB64 _ hvkey hhc hpc hsc,
      verifyParts_supported p verKey hB64 pB64 _ header _ hhdr halg hsupV]
    simp only [verifyDispatch, hsym rfl, b64_bytes_roundtrip _ hsigB]
    rw [if_pos (by decide : String.mk ("HS256".toList) = "HS256")]
    simp
  · -- RS256
    simp only [encodeDispatch] at henc
    rw [if_neg (by decide), if_pos (by decide)] at henc
    cases hsig : p.rsaSign signKey (utf8Encode (hB64 ++ '.' :: pB64)) with
    | none =>
      rw [hsig] at henc
      simp only [] at henc
      exact absurd (congrArg EncodeResult.error henc) (by simp)
    | some sig =>
      rw [hsig] at henc
      simp only [] at henc
      rw [EncodeResult.mk.injEq] at henc
      obtain ⟨htok, -⟩ := henc
      subst htok
      have hsigB := hrsaB _ _ hsig
      have hsc := uint8ArrayToBase64Url_chars _ hsigB
      rw [verify_token_of p verKey hB64 pB64 _ hvkey hhc hpc hsc,
        verifyParts_supported p verKey hB64 pB64 _ header _ hhdr halg hsupV]
      simp only [verifyDispatch, b64_bytes_roundtrip _ hsigB]
      rw [if_neg (by decide), if_pos (by decide), hrsa _ _ hsig]
      rfl
  · -- ES256
    simp only [encodeDispatch] at henc
    rw [if_neg (by decide), if_neg (by decide), if_pos (by decide)] at henc
    cases hsig : p.ecdsaSign signKey (utf8Encode (hB64 ++ '.' :: pB64)) with
    | none =>
      rw [hsig] at henc
      simp only [] at henc
      exact absurd (congrArg EncodeResult.error henc) (by simp)
    | some sig =>
      rw [hsig] at henc
      simp only [] at henc
      rw [EncodeResult.mk.injEq] at henc
      obtain ⟨htok, -⟩ := henc
      subst htok
      have hsigB := hecB _ _ hsig
      have hsc := uint8ArrayToBase64Url_chars _ hsigB
      rw [verify_token_of p verKey hB64 pB64 _ hvkey hhc hpc hsc,
        verifyParts_supported p verKey hB64 pB64 _ header _ hhdr halg hsupV]
      simp only [verifyDispatch, b64_bytes_roundtrip _ hsigB]
      rw [if_neg (by decide), if_neg (by decide), if_pos (by decide),
        hec _ _ hsig]
      rfl

/-- C2 witness: a concrete HS256 encode→verify round trip through the
abstract back-end `wPrims`. -/
theorem claim2_witness :
    verifyJWTSignature wPrims
      ("eyJhbGciOiJIUzI1NiJ9.eyJhbGciOiJIUzI1NiJ9.AQID".toList)
      ("k".toList) = some ⟨true, none, some "HS256"⟩ :=
  claim2_encode_verify wPrims wStringify wHeader JsonValue.null
    ("k".toList) ("k".toList) ("HS256".toList) rfl (Or.inl rfl)
    (by decide) (by decide) (fun _ => rfl) rfl
    (fun k m b hb => by
      have hb3 : b ∈ [1, 2, 3] := hb
      fin_cases hb3 <;> decide)
    (fun m sig hs b hb => by
      obtain rfl : [9] = sig := Option.some.inj hs
      have hb9 : b ∈ [9] := hb
      fin_cases hb9
      decide)
    (fun m sig hs b hb => by
      obtain rfl : [7] = sig := Option.some.inj hs
      have hb7 : b ∈ [7] := hb
      fin_cases hb7
      decide)
    (fun m sig hs => by
      obtain rfl : [9] = sig := Option.some.inj hs
      rfl)
    (fun m sig hs => by
      obtain rfl : [7] = sig := Option.some.inj hs
      rfl)
    _ rfl

end Claims

end JWT
